import Mathlib

set_option linter.unusedSectionVars false
set_option linter.unusedVariables false

/-!
Shallow embedding of the Ledger Consistency Engine of the FarmLedger
application (src/views/DailyRecord.tsx, src/views/AddSupply.tsx,
src/views/Customers.tsx inside src/unnamed/part_005, src/views/Settings.tsx
inside src/unnamed/part_006, src/types.ts, src/db.ts).

Numeric values (`number` in the source) are modelled over an arbitrary
linearly ordered commutative ring `K`; the engine only ever adds,
subtracts, multiplies and compares them.  Calendar days (the source
standardises every stored `Date` to the start of its day, and ordering
only ever compares `getTime()` values) are modelled as `Nat`, as are the
auto-incremented record ids of the Dexie store.  Display-only string
fields (`name`, `phone`, `customerName`, `notes`, `paymentMethod`) are
omitted: no engine decision reads them.
-/

namespace FarmLedger

/-- The `TransactionType` enum of src/types.ts. -/
inductive TransactionType : Type
  | SUPPLY : TransactionType
  | PAYMENT : TransactionType
deriving DecidableEq

/-- The `Transaction` record of src/types.ts (string fields omitted,
`date` replaced by the standardised calendar day). -/
structure Transaction (K : Type) where
  id : Nat
  customerId : Nat
  day : Nat
  type : TransactionType
  quantity : Option K
  rate : Option K
  amount : K
  balanceAfter : K
deriving DecidableEq

/-- The `Customer` record of src/types.ts (string fields omitted,
dates replaced by days). -/
structure Customer (K : Type) where
  id : Nat
  supplyRate : K
  openingBalance : K
  currentBalance : K
  totalSupplied : K
  totalPaid : K
  lastSupplyDate : Option Nat
  createdAt : Nat
deriving DecidableEq

/-- The Dexie store (src/db.ts): the two record tables together with the
auto-increment key generators of the `++id` primary keys. -/
structure DB (K : Type) where
  customers : List (Customer K)
  transactions : List (Transaction K)
  nextTxId : Nat
  nextCustomerId : Nat
deriving DecidableEq

variable {K : Type} [LinearOrderedCommRing K]

/-- Point insert into the transaction table: Dexie `db.transactions.add`
assigns the next auto-increment id and appends the record. -/
def addTransaction (db : DB K) (mk : Nat → Transaction K) : DB K :=
  { db with transactions := db.transactions ++ [mk db.nextTxId],
            nextTxId := db.nextTxId + 1 }

/-- Point update by id: Dexie `db.transactions.update(id, fields)`. -/
def updateTransaction (db : DB K) (tid : Nat) (f : Transaction K → Transaction K) : DB K :=
  { db with transactions := db.transactions.map (fun t => if t.id = tid then f t else t) }

/-- Point delete by id: Dexie `db.transactions.delete(id)`. -/
def deleteTransaction (db : DB K) (tid : Nat) : DB K :=
  { db with transactions := db.transactions.filter (fun t => decide (t.id ≠ tid)) }

/-- Point update of a customer record: Dexie `db.customers.update(id, fields)`. -/
def updateCustomer (db : DB K) (cid : Nat) (f : Customer K → Customer K) : DB K :=
  { db with customers := db.customers.map (fun c => if c.id = cid then f c else c) }

/-- Dexie `db.transactions.where('customerId').equals(cid).toArray()`. -/
def transactionsOf (db : DB K) (cid : Nat) : List (Transaction K) :=
  db.transactions.filter (fun t => decide (t.customerId = cid))

/-- The sort key rank of the secondary comparator key: in the canonical
comparator `a.type === SUPPLY` sorts first (`return -1`). -/
def typeRank : TransactionType → Nat
  | TransactionType.SUPPLY => 0
  | TransactionType.PAYMENT => 1

/-- The canonical comparator of DailyRecord.tsx lines 158-165 (identical
in `recalculateCustomerBalance`, src/unnamed/part_005 lines 1126-1131):
ascending `date`, then `SUPPLY` before `PAYMENT`, then ascending `id`,
expressed as its `≤` Boolean. -/
def canonLE (a b : Transaction K) : Bool :=
  decide (a.day < b.day) ||
    (decide (a.day = b.day) &&
      (decide (typeRank a.type < typeRank b.type) ||
        (decide (typeRank a.type = typeRank b.type) && decide (a.id ≤ b.id))))

/-- Insertion of a transaction into an already canonically sorted list,
by the comparator above. -/
def insertCanon (x : Transaction K) : List (Transaction K) → List (Transaction K)
  | [] => [x]
  | y :: l => if canonLE x y then x :: y :: l else y :: insertCanon x l

/-- The in-place `allCustomerTrans.sort(comparator)` call of the replay,
as a sort by the canonical comparator.  On transaction sets with
pairwise distinct ids the comparator is a total order, so every correct
sort of the same set returns this very list (`sortCanon_eq_of_perm`
below); the choice of sorting algorithm is therefore immaterial. -/
def sortCanon : List (Transaction K) → List (Transaction K)
  | [] => []
  | x :: l => insertCanon x (sortCanon l)

/-- The mutable locals of the replay forward pass (DailyRecord.tsx lines
167-170).  `recalculateCustomerBalance` (src/unnamed/part_005 lines
1133-1135) runs the same fold without a `lastSupplyDate` local; it is
embedded by the same function, ignoring the `lastSupplyDate` component. -/
structure ReplayAcc (K : Type) where
  runningBalance : K
  totalSupplied : K
  totalPaid : K
  lastSupplyDate : Nat
deriving DecidableEq

/-- One iteration of the replay loop (DailyRecord.tsx lines 172-182):
updates the accumulators and rewrites the transaction's `balanceAfter`. -/
def replayStep (acc : ReplayAcc K) (t : Transaction K) : ReplayAcc K × Transaction K :=
  match t.type with
  | TransactionType.SUPPLY =>
      let rb := acc.runningBalance + t.amount
      ({ runningBalance := rb,
         totalSupplied := acc.totalSupplied + t.quantity.getD 0,
         totalPaid := acc.totalPaid,
         lastSupplyDate := t.day },
       { t with balanceAfter := rb })
  | TransactionType.PAYMENT =>
      let rb := acc.runningBalance - t.amount
      ({ runningBalance := rb,
         totalSupplied := acc.totalSupplied,
         totalPaid := acc.totalPaid + t.amount,
         lastSupplyDate := acc.lastSupplyDate },
       { t with balanceAfter := rb })

/-- The replay loop over an already sorted list: returns the final
accumulators and the list of transactions with rewritten `balanceAfter`. -/
def forwardPass (acc : ReplayAcc K) : List (Transaction K) → ReplayAcc K × List (Transaction K)
  | [] => (acc, [])
  | t :: rest =>
      let s := replayStep acc t
      let r := forwardPass s.1 rest
      (r.1, s.2 :: r.2)

/-- The initial accumulators of the DailyRecord replay (lines 167-170). -/
def initAcc (c : Customer K) : ReplayAcc K :=
  { runningBalance := c.openingBalance, totalSupplied := 0, totalPaid := 0,
    lastSupplyDate := c.createdAt }

/-- The canonical replay of a customer's transaction set: sort, then the
forward pass (DailyRecord.tsx lines 158-182). -/
def replay (c : Customer K) (l : List (Transaction K)) : ReplayAcc K × List (Transaction K) :=
  forwardPass (initAcc c) (sortCanon l)

/-- The sequence of `db.transactions.update(t.id, { balanceAfter })`
writes of the replay loop: each stored record whose id appears in the
computed list receives the computed `balanceAfter`. -/
def writeBalances (txs outs : List (Transaction K)) : List (Transaction K) :=
  txs.map (fun t =>
    match outs.find? (fun o => decide (o.id = t.id)) with
    | some o => { t with balanceAfter := o.balanceAfter }
    | none => t)

/-- The replay tail of DailyRecord.tsx `handleSave` (lines 154-189) for
one customer: fetch the customer's transactions, sort, run the forward
pass, write every `balanceAfter` back, then write the customer's four
aggregate fields. -/
def runReplayDaily (db : DB K) (c : Customer K) : DB K :=
  let r := replay c (transactionsOf db c.id)
  let db1 : DB K := { db with transactions := writeBalances db.transactions r.2 }
  updateCustomer db1 c.id (fun cu =>
    { cu with currentBalance := r.1.runningBalance,
              totalSupplied := r.1.totalSupplied,
              totalPaid := r.1.totalPaid,
              lastSupplyDate := some r.1.lastSupplyDate })

/-- Lookup of the day's existing SUPPLY row (DailyRecord.tsx lines
104-105: a day-range query over all transactions, then `find` by
customer and type). -/
def findOldSupply (db : DB K) (cid day : Nat) : Option (Transaction K) :=
  (db.transactions.filter (fun t => decide (t.day = day))).find?
    (fun t => decide (t.customerId = cid ∧ t.type = TransactionType.SUPPLY))

/-- Lookup of the day's existing PAYMENT row (DailyRecord.tsx line 106). -/
def findOldPayment (db : DB K) (cid day : Nat) : Option (Transaction K) :=
  (db.transactions.filter (fun t => decide (t.day = day))).find?
    (fun t => decide (t.customerId = cid ∧ t.type = TransactionType.PAYMENT))

/-- `oldSupply?.quantity || 0` (DailyRecord.tsx line 108). -/
def oldQtyOf (db : DB K) (cid day : Nat) : K :=
  ((findOldSupply db cid day).bind Transaction.quantity).getD 0

/-- `oldPayment?.amount || 0` (DailyRecord.tsx line 109). -/
def oldPayOf (db : DB K) (cid day : Nat) : K :=
  ((findOldPayment db cid day).map Transaction.amount).getD 0

/-- The supply reconciliation step of `handleSave` (DailyRecord.tsx
lines 117-135): update the existing supply row in place, insert a new
one, or delete an existing one when the proposed quantity is not
positive. -/
def reconcileSupply (farmRate : K) (day : Nat) (db : DB K) (c : Customer K)
    (newQty : K) : DB K :=
  if 0 < newQty then
    let dailyRate := farmRate + c.supplyRate
    let amount := newQty * dailyRate
    match findOldSupply db c.id day with
    | some s =>
        updateTransaction db s.id (fun t =>
          { t with quantity := some newQty, rate := some dailyRate, amount := amount })
    | none =>
        addTransaction db (fun i =>
          { id := i, customerId := c.id, day := day,
            type := TransactionType.SUPPLY,
            quantity := some newQty, rate := some dailyRate,
            amount := amount, balanceAfter := 0 })
  else
    match findOldSupply db c.id day with
    | some s => deleteTransaction db s.id
    | none => db

/-- The payment reconciliation step of `handleSave` (DailyRecord.tsx
lines 137-152); `oldPayment` was looked up in the store as it stood
before the supply step ran. -/
def reconcilePayment (day : Nat) (oldPayment : Option (Transaction K)) (db : DB K)
    (c : Customer K) (newPay : K) : DB K :=
  if 0 < newPay then
    match oldPayment with
    | some p => updateTransaction db p.id (fun t => { t with amount := newPay })
    | none =>
        addTransaction db (fun i =>
          { id := i, customerId := c.id, day := day,
            type := TransactionType.PAYMENT,
            quantity := none, rate := none,
            amount := newPay, balanceAfter := 0 })
  else
    match oldPayment with
    | some p => deleteTransaction db p.id
    | none => db

/-- The loop body of DailyRecord.tsx `handleSave` (lines 99-189) for one
customer `c` of the daily sheet: the no-op short-circuit, the supply and
payment reconciliation against the (customer, day) pair, then the full
replay. -/
def handleSaveCustomer (farmRate : K) (day : Nat) (db : DB K) (c : Customer K)
    (newQty newPay : K) : DB K :=
  let oldSupply := findOldSupply db c.id day
  let oldPayment := findOldPayment db c.id day
  let oldQty := oldQtyOf db c.id day
  let oldPay := oldPayOf db c.id day
  if newQty = oldQty ∧ newPay = oldPay ∧
      (oldSupply.isSome ∨ oldPayment.isSome ∨ (newQty = 0 ∧ newPay = 0)) then
    db
  else
    runReplayDaily
      (reconcilePayment day oldPayment (reconcileSupply farmRate day db c newQty) c newPay)
      c

/-- The `recalculateCustomerBalance` function of the Customers view
(src/unnamed/part_005 lines 1117-1157): the same sort and forward pass,
but the customer write-back sets `openingBalance`, `currentBalance`,
`totalSupplied` and `totalPaid` only — there is no `lastSupplyDate`
local in this pass and the field is not written. -/
def recalculateCustomerBalance (db : DB K) (cid : Nat) (newOpening : K) : DB K :=
  let r := forwardPass
    { runningBalance := newOpening, totalSupplied := 0, totalPaid := 0, lastSupplyDate := 0 }
    (sortCanon (transactionsOf db cid))
  let db1 : DB K := { db with transactions := writeBalances db.transactions r.2 }
  updateCustomer db1 cid (fun cu =>
    { cu with openingBalance := newOpening,
              currentBalance := r.1.runningBalance,
              totalSupplied := r.1.totalSupplied,
              totalPaid := r.1.totalPaid })

/-- The edit branch of the Customers view `handleSubmit`
(src/unnamed/part_005 lines 1159-1179): update the basic details, then
recalculate the whole chain exactly when the opening balance changed.
`c` is the `editingCustomer` snapshot. -/
def customersHandleSubmitEdit (db : DB K) (c : Customer K)
    (newSupplyRate newOpening : K) : DB K :=
  let db1 := updateCustomer db c.id (fun cu => { cu with supplyRate := newSupplyRate })
  if c.openingBalance = newOpening then db1
  else recalculateCustomerBalance db1 c.id newOpening

/-- The add branch of the Customers view `handleSubmit`
(src/unnamed/part_005 lines 1180-1192): a new customer starts with
`currentBalance = openingBalance`, zero totals and no `lastSupplyDate`. -/
def addCustomer (db : DB K) (supplyRate opening : K) (createdAt : Nat) : DB K :=
  { db with
      customers := db.customers ++
        [{ id := db.nextCustomerId, supplyRate := supplyRate,
           openingBalance := opening, currentBalance := opening,
           totalSupplied := 0, totalPaid := 0,
           lastSupplyDate := none, createdAt := createdAt }],
      nextCustomerId := db.nextCustomerId + 1 }

/-- `AddSupply.handleSubmit` (src/views/AddSupply.tsx lines 45-80): a
non-positive quantity returns before any write; otherwise one
transaction is appended with an incrementally computed `balanceAfter`
and the customer record is updated from the `selectedCustomer` snapshot
`c`. -/
def addSupplySubmit (db : DB K) (farmRate : K) (c : Customer K) (day : Nat) (qty : K) : DB K :=
  if qty ≤ 0 then db
  else
    let dailyRate := farmRate + c.supplyRate
    let dailyAmount := qty * dailyRate
    let balanceAfter := c.currentBalance + dailyAmount
    let db1 := addTransaction db (fun i =>
      { id := i, customerId := c.id, day := day,
        type := TransactionType.SUPPLY,
        quantity := some qty, rate := some dailyRate,
        amount := dailyAmount, balanceAfter := balanceAfter })
    updateCustomer db1 c.id (fun cu =>
      { cu with currentBalance := balanceAfter,
                totalSupplied := c.totalSupplied + qty,
                lastSupplyDate := some day })

/-- `AddPayment.handleSubmit` (src/views/AddSupply.tsx lines 275-310): a
non-positive amount returns before any write; otherwise one transaction
is appended with an incrementally computed `balanceAfter` and the
customer record is updated from the snapshot `c`; `lastSupplyDate` is
not touched. -/
def addPaymentSubmit (db : DB K) (c : Customer K) (day : Nat) (amount : K) : DB K :=
  if amount ≤ 0 then db
  else
    let balanceAfter := c.currentBalance - amount
    let db1 := addTransaction db (fun i =>
      { id := i, customerId := c.id, day := day,
        type := TransactionType.PAYMENT,
        quantity := none, rate := none,
        amount := amount, balanceAfter := balanceAfter })
    updateCustomer db1 c.id (fun cu =>
      { cu with currentBalance := balanceAfter,
                totalPaid := c.totalPaid + amount })

/-- Customer deletion (src/unnamed/part_005 lines 1206-1224 and
src/views/CustomerDetail.tsx lines 48-57): the customer record and every
transaction owned by it are removed in one unit. -/
def deleteCustomerOp (db : DB K) (cid : Nat) : DB K :=
  { db with
      customers := db.customers.filter (fun c => decide (c.id ≠ cid)),
      transactions := db.transactions.filter (fun t => decide (t.customerId ≠ cid)) }

/-- The payload of a backup file as consumed by `importData`
(src/unnamed/part_006 lines 120-139). -/
structure BackupData (K : Type) where
  customers : List (Customer K)
  transactions : List (Transaction K)
deriving DecidableEq

/-- `importData` (src/unnamed/part_006 lines 120-139): clear every
table, then `bulkAdd` the imported records verbatim — including their
`balanceAfter` and aggregate fields; no replay follows (the page merely
reloads).  The key generators continue above any imported id, as
IndexedDB key generators do. -/
def importData (db : DB K) (data : BackupData K) : DB K :=
  let cleared : DB K := { db with customers := [], transactions := [] }
  { cleared with
      customers := cleared.customers ++ data.customers,
      transactions := cleared.transactions ++ data.transactions,
      nextTxId := max db.nextTxId
        ((data.transactions.map (fun t => t.id + 1)).foldr max 0),
      nextCustomerId := max db.nextCustomerId
        ((data.customers.map (fun c => c.id + 1)).foldr max 0) }

/-- The empty store, as after `db.delete()` / first open. -/
def emptyDB : DB K :=
  { customers := [], transactions := [], nextTxId := 1, nextCustomerId := 1 }

/-- Sum of `quantity` over the SUPPLY transactions of a list. -/
def supplyQtySum (l : List (Transaction K)) : K :=
  ((l.filter (fun t => decide (t.type = TransactionType.SUPPLY))).map
    (fun t => t.quantity.getD 0)).sum

/-- Sum of `amount` over the SUPPLY transactions of a list. -/
def supplyAmountSum (l : List (Transaction K)) : K :=
  ((l.filter (fun t => decide (t.type = TransactionType.SUPPLY))).map
    (fun t => t.amount)).sum

/-- Sum of `amount` over the PAYMENT transactions of a list. -/
def paymentAmountSum (l : List (Transaction K)) : K :=
  ((l.filter (fun t => decide (t.type = TransactionType.PAYMENT))).map
    (fun t => t.amount)).sum

lemma supplyQtySum_cons (t : Transaction K) (l : List (Transaction K)) :
    supplyQtySum (t :: l) =
      (if t.type = TransactionType.SUPPLY then t.quantity.getD 0 else 0) + supplyQtySum l := by
  by_cases h : t.type = TransactionType.SUPPLY <;>
    simp [supplyQtySum, List.filter_cons, h]

lemma supplyAmountSum_cons (t : Transaction K) (l : List (Transaction K)) :
    supplyAmountSum (t :: l) =
      (if t.type = TransactionType.SUPPLY then t.amount else 0) + supplyAmountSum l := by
  by_cases h : t.type = TransactionType.SUPPLY <;>
    simp [supplyAmountSum, List.filter_cons, h]

lemma paymentAmountSum_cons (t : Transaction K) (l : List (Transaction K)) :
    paymentAmountSum (t :: l) =
      (if t.type = TransactionType.PAYMENT then t.amount else 0) + paymentAmountSum l := by
  by_cases h : t.type = TransactionType.PAYMENT <;>
    simp [paymentAmountSum, List.filter_cons, h]

lemma supplyQtySum_perm {l l' : List (Transaction K)} (h : l.Perm l') :
    supplyQtySum l = supplyQtySum l' :=
  List.Perm.sum_eq ((h.filter _).map _)

lemma supplyAmountSum_perm {l l' : List (Transaction K)} (h : l.Perm l') :
    supplyAmountSum l = supplyAmountSum l' :=
  List.Perm.sum_eq ((h.filter _).map _)

lemma paymentAmountSum_perm {l l' : List (Transaction K)} (h : l.Perm l') :
    paymentAmountSum l = paymentAmountSum l' :=
  List.Perm.sum_eq ((h.filter _).map _)

lemma insertCanon_perm (x : Transaction K) (l : List (Transaction K)) :
    (insertCanon x l).Perm (x :: l) := by
  induction l with
  | nil => simp [insertCanon]
  | cons y l ih =>
    by_cases h : canonLE x y = true
    · simp [insertCanon, h]
    · simp only [insertCanon, if_neg h]
      exact (ih.cons y).trans (List.Perm.swap x y l)

lemma sortCanon_perm (l : List (Transaction K)) : (sortCanon l).Perm l := by
  induction l with
  | nil => simp [sortCanon]
  | cons x l ih => exact (insertCanon_perm x (sortCanon l)).trans (ih.cons x)

/-- The accumulator fields produced by the forward pass: running sums of
supply amounts, supply quantities and payment amounts. -/
lemma forwardPass_agg (acc : ReplayAcc K) (l : List (Transaction K)) :
    (forwardPass acc l).1.runningBalance
        = acc.runningBalance + supplyAmountSum l - paymentAmountSum l ∧
      (forwardPass acc l).1.totalSupplied = acc.totalSupplied + supplyQtySum l ∧
      (forwardPass acc l).1.totalPaid = acc.totalPaid + paymentAmountSum l := by
  induction l generalizing acc with
  | nil => simp [forwardPass, supplyQtySum, supplyAmountSum, paymentAmountSum]
  | cons t rest ih =>
    obtain ⟨i, cid, d, ty, q, r, a, b⟩ := t
    cases ty
    · rcases ih ({ runningBalance := acc.runningBalance + a,
                   totalSupplied := acc.totalSupplied + q.getD 0,
                   totalPaid := acc.totalPaid, lastSupplyDate := d } : ReplayAcc K) with ⟨h1, h2, h3⟩
      refine ⟨?_, ?_, ?_⟩ <;>
        simp [forwardPass, replayStep, h1, h2, h3, supplyQtySum_cons,
          supplyAmountSum_cons, paymentAmountSum_cons] <;> ring
    · rcases ih ({ runningBalance := acc.runningBalance - a,
                   totalSupplied := acc.totalSupplied,
                   totalPaid := acc.totalPaid + a,
                   lastSupplyDate := acc.lastSupplyDate } : ReplayAcc K) with ⟨h1, h2, h3⟩
      refine ⟨?_, ?_, ?_⟩ <;>
        simp [forwardPass, replayStep, h1, h2, h3, supplyQtySum_cons,
          supplyAmountSum_cons, paymentAmountSum_cons] <;> ring

/-- The replay accumulators as closed sums over the customer's
(unsorted) transaction set. -/
lemma replay_agg (c : Customer K) (l : List (Transaction K)) :
    (replay c l).1.runningBalance
        = c.openingBalance + supplyAmountSum l - paymentAmountSum l ∧
      (replay c l).1.totalSupplied = supplyQtySum l ∧
      (replay c l).1.totalPaid = paymentAmountSum l := by
  have h := forwardPass_agg (initAcc c) (sortCanon l)
  rw [supplyAmountSum_perm (sortCanon_perm l), supplyQtySum_perm (sortCanon_perm l),
      paymentAmountSum_perm (sortCanon_perm l)] at h
  simpa [replay, initAcc] using h

/-- C1.  After the replay forward pass completes for a customer, the
accumulated `totalSupplied` is the sum of `quantity` over the customer's
SUPPLY transactions, `totalPaid` is the sum of `amount` over the
customer's PAYMENT transactions, and the running balance — written to
`currentBalance` — equals `openingBalance` plus the sum of SUPPLY
`amount` minus `totalPaid`; the daily-record replay writes exactly these
values into the customer record. -/
theorem replay_aggregate_agreement (db : DB K) (c : Customer K) :
    (replay c (transactionsOf db c.id)).1.totalSupplied
        = supplyQtySum (transactionsOf db c.id) ∧
      (replay c (transactionsOf db c.id)).1.totalPaid
        = paymentAmountSum (transactionsOf db c.id) ∧
      (replay c (transactionsOf db c.id)).1.runningBalance
        = c.openingBalance + supplyAmountSum (transactionsOf db c.id)
            - paymentAmountSum (transactionsOf db c.id) ∧
      (runReplayDaily db c).customers
        = db.customers.map (fun cu =>
            if cu.id = c.id then
              { cu with
                  currentBalance := c.openingBalance
                    + supplyAmountSum (transactionsOf db c.id)
                    - paymentAmountSum (transactionsOf db c.id),
                  totalSupplied := supplyQtySum (transactionsOf db c.id),
                  totalPaid := paymentAmountSum (transactionsOf db c.id),
                  lastSupplyDate := some (replay c (transactionsOf db c.id)).1.lastSupplyDate }
            else cu) := by
  obtain ⟨h1, h2, h3⟩ := replay_agg c (transactionsOf db c.id)
  refine ⟨h2, h3, h1, ?_⟩
  simp only [runReplayDaily, updateCustomer, h1, h2, h3]

/-- The no-op short-circuit of `handleSave` (DailyRecord.tsx line 111):
when the proposed quantity and payment both equal their stored
counterparts (with absence read as 0), the loop body leaves the store
untouched. -/
lemma handleSaveCustomer_noop (farmRate : K) (day : Nat) (db : DB K) (c : Customer K)
    (newQty newPay : K) (hq : newQty = oldQtyOf db c.id day)
    (hp : newPay = oldPayOf db c.id day) :
    handleSaveCustomer farmRate day db c newQty newPay = db := by
  have hcond : newQty = oldQtyOf db c.id day ∧ newPay = oldPayOf db c.id day ∧
      ((findOldSupply db c.id day).isSome ∨ (findOldPayment db c.id day).isSome ∨
        (newQty = 0 ∧ newPay = 0)) := by
    refine ⟨hq, hp, ?_⟩
    cases hs : findOldSupply db c.id day with
    | some s => exact Or.inl (by simp [hs])
    | none =>
      cases hpm : findOldPayment db c.id day with
      | some p => exact Or.inr (Or.inl (by simp [hpm]))
      | none =>
        refine Or.inr (Or.inr ⟨?_, ?_⟩)
        · rw [hq]; simp [oldQtyOf, hs]
        · rw [hp]; simp [oldPayOf, hpm]
  simp only [handleSaveCustomer]
  rw [if_pos hcond]

/-- C4.  If the proposed quantity equals the stored supply quantity for
the day (absence read as 0 on both sides) and the proposed payment
equals the stored payment amount, day reconciliation performs zero
store writes for that customer and day: the resulting store is the
input store, so no transaction is inserted, updated or deleted and the
customer record and every `balanceAfter` stay unchanged. -/
theorem day_reconciliation_noop (farmRate : K) (day : Nat) (db : DB K) (c : Customer K)
    (newQty newPay : K) (hq : newQty = oldQtyOf db c.id day)
    (hp : newPay = oldPayOf db c.id day) :
    handleSaveCustomer farmRate day db c newQty newPay = db :=
  handleSaveCustomer_noop farmRate day db c newQty newPay hq hp

/-- C10.  Even when the stored supply row's rate differs from the
currently effective rate `farmRate + supplyRate`, re-submitting the
stored quantity and payment is a complete no-op: the stored rate and
amount keep their old values and no rate-only update of an existing
supply occurs. -/
theorem no_rate_only_update (farmRate : K) (day : Nat) (db : DB K) (c : Customer K)
    (s : Transaction K) (q newPay : K)
    (hs : findOldSupply db c.id day = some s) (hq : s.quantity = some q)
    (hrate : s.rate ≠ some (farmRate + c.supplyRate))
    (hp : newPay = oldPayOf db c.id day) :
    handleSaveCustomer farmRate day db c q newPay = db := by
  refine handleSaveCustomer_noop farmRate day db c q newPay ?_ hp
  simp [oldQtyOf, hs, hq]

/-- A small concrete store shared by several witnesses: one customer
(id 1, supply add-on 10) holding one SUPPLY transaction on day 1 of 10
units at rate 160, in a replay-consistent state. -/
def wCustomer : Customer Int :=
  { id := 1, supplyRate := 10, openingBalance := 0, currentBalance := 1600,
    totalSupplied := 10, totalPaid := 0, lastSupplyDate := some 1, createdAt := 0 }

def wSupplyTx : Transaction Int :=
  { id := 1, customerId := 1, day := 1, type := TransactionType.SUPPLY,
    quantity := some 10, rate := some 160, amount := 1600, balanceAfter := 1600 }

def wDB : DB Int :=
  { customers := [wCustomer], transactions := [wSupplyTx], nextTxId := 2, nextCustomerId := 2 }

theorem day_reconciliation_noop_witness :
    ((10 : Int) = oldQtyOf wDB 1 1 ∧ (0 : Int) = oldPayOf wDB 1 1) ∧
      handleSaveCustomer (150 : Int) 1 wDB wCustomer 10 0 = wDB :=
  ⟨⟨by decide, by decide⟩,
    day_reconciliation_noop 150 1 wDB wCustomer 10 0 (by decide) (by decide)⟩

lemma typeRank_inj {a b : TransactionType} (h : typeRank a = typeRank b) : a = b := by
  cases a <;> cases b <;> simp_all [typeRank]

lemma canonLE_total (a b : Transaction K) : (canonLE a b || canonLE b a) = true := by
  simp only [canonLE, Bool.or_eq_true, Bool.and_eq_true, decide_eq_true_eq]
  omega

lemma canonLE_trans (a b c : Transaction K) (h1 : canonLE a b = true)
    (h2 : canonLE b c = true) : canonLE a c = true := by
  simp only [canonLE, Bool.or_eq_true, Bool.and_eq_true, decide_eq_true_eq] at h1 h2 ⊢
  omega

lemma canonLE_antisymm_key {a b : Transaction K} (h1 : canonLE a b = true)
    (h2 : canonLE b a = true) : a.day = b.day ∧ a.type = b.type ∧ a.id = b.id := by
  simp only [canonLE, Bool.or_eq_true, Bool.and_eq_true, decide_eq_true_eq] at h1 h2
  have : a.day = b.day ∧ typeRank a.type = typeRank b.type ∧ a.id = b.id := by omega
  exact ⟨this.1, typeRank_inj this.2.1, this.2.2⟩

/-- The strict canonical order: comparator-`≤` together with distinct
ids.  On a transaction set with pairwise distinct ids this is the total
strict order `day`, then kind, then `id`, and it pins the sorted list
down uniquely. -/
def canonLT (a b : Transaction K) : Prop :=
  canonLE a b = true ∧ a.id ≠ b.id

lemma canonLT_asymm (a b : Transaction K) (h1 : canonLT a b) (h2 : canonLT b a) : False :=
  h1.2 (canonLE_antisymm_key h1.1 h2.1).2.2

/-- A list that is a permutation of another and pairwise ordered by an
asymmetric relation, like the other, is equal to it: the sorted order is
unique. -/
lemma eq_of_perm_of_pairwise {α : Type _} {r : α → α → Prop}
    (hasymm : ∀ a b, r a b → r b a → False) :
    ∀ {l₁ l₂ : List α}, l₁.Perm l₂ → l₁.Pairwise r → l₂.Pairwise r → l₁ = l₂ := by
  intro l₁
  induction l₁ with
  | nil =>
    intro l₂ hp _ _
    exact (hp.symm.eq_nil).symm
  | cons a t ih =>
    intro l₂ hp h1 h2
    have ha : a ∈ l₂ := hp.mem_iff.mp (List.mem_cons_self a t)
    obtain ⟨u, v, rfl⟩ := List.append_of_mem ha
    cases u with
    | nil =>
      have hp' : t.Perm v := (List.perm_cons a).mp (by simpa using hp)
      have h2' : v.Pairwise r := (List.pairwise_cons.mp (by simpa using h2)).2
      simpa using ih hp' (List.pairwise_cons.mp h1).2 h2'
    | cons x u' =>
      exfalso
      rw [List.cons_append] at h2
      have hxa : r x a := (List.pairwise_cons.mp h2).1 a (by simp)
      have hx_mem : x ∈ a :: t := hp.symm.subset (by simp)
      rcases List.mem_cons.mp hx_mem with hx | hx
      · exact hasymm a a (hx ▸ hxa) (hx ▸ hxa)
      · exact hasymm a x ((List.pairwise_cons.mp h1).1 x hx) hxa

lemma insertCanon_sorted (x : Transaction K) {l : List (Transaction K)}
    (hl : l.Pairwise (fun a b => canonLE a b = true)) :
    (insertCanon x l).Pairwise (fun a b => canonLE a b = true) := by
  induction l with
  | nil => simp [insertCanon]
  | cons y l ih =>
    rcases List.pairwise_cons.mp hl with ⟨hy, hl'⟩
    by_cases h : canonLE x y = true
    · simp only [insertCanon, if_pos h]
      refine List.pairwise_cons.mpr ⟨?_, hl⟩
      intro b hb
      rcases List.mem_cons.mp hb with rfl | hb
      · exact h
      · exact canonLE_trans x y b h (hy b hb)
    · have hyx : canonLE y x = true := by
        rcases Bool.or_eq_true_iff.mp (canonLE_total x y) with h1 | h1
        · exact absurd h1 h
        · exact h1
      simp only [insertCanon, if_neg h]
      refine List.pairwise_cons.mpr ⟨?_, ih hl'⟩
      intro b hb
      have hb' : b ∈ x :: l := (insertCanon_perm x l).subset hb
      rcases List.mem_cons.mp hb' with rfl | hb'
      · exact hyx
      · exact hy b hb'

lemma sortCanon_sorted (l : List (Transaction K)) :
    (sortCanon l).Pairwise (fun a b => canonLE a b = true) := by
  induction l with
  | nil => simp [sortCanon]
  | cons x l ih => exact insertCanon_sorted x ih

lemma sortCanon_pairwise_strict (l : List (Transaction K))
    (hid : (l.map Transaction.id).Nodup) : (sortCanon l).Pairwise canonLT := by
  have hid' : ((sortCanon l).map Transaction.id).Nodup :=
    (((sortCanon_perm l).map Transaction.id).nodup_iff).mpr hid
  have hne : (sortCanon l).Pairwise (fun a b => a.id ≠ b.id) :=
    (List.pairwise_map).mp hid'
  exact ((sortCanon_sorted l).and hne).imp (fun h => ⟨h.1, h.2⟩)

/-- Insertion order is irrelevant: two stores holding the same
transactions (with distinct ids) in any order sort to the same list. -/
lemma sortCanon_eq_of_perm {l l' : List (Transaction K)} (hperm : l.Perm l')
    (hid : (l.map Transaction.id).Nodup) : sortCanon l = sortCanon l' := by
  have hid' : (l'.map Transaction.id).Nodup := ((hperm.map Transaction.id).nodup_iff).mp hid
  exact eq_of_perm_of_pairwise canonLT_asymm
    ((sortCanon_perm l).trans (hperm.trans (sortCanon_perm l').symm))
    (sortCanon_pairwise_strict l hid) (sortCanon_pairwise_strict l' hid')

/-- C2.  Replay processes a customer's transactions in the canonical
total order — ascending day, then SUPPLY before PAYMENT, then ascending
id, which is exactly the pairwise `canonLT` fact below — so the replay
result is the same for any insertion order of the same transaction set,
and in the processed order no PAYMENT ever precedes a same-day SUPPLY:
a day's supply is added to the running balance before that day's
payment is subtracted, so `SUPPLY.balanceAfter` always reflects
supply-added-before-payment-subtracted, regardless of insertion order. -/
theorem replay_canonical_total_order (c : Customer K) (l l' : List (Transaction K))
    (hperm : l.Perm l') (hid : (l.map Transaction.id).Nodup) :
    replay c l = replay c l' ∧
      (sortCanon l).Pairwise canonLT ∧
      (sortCanon l).Pairwise (fun a b => a.day = b.day →
        ¬(a.type = TransactionType.PAYMENT ∧ b.type = TransactionType.SUPPLY)) := by
  refine ⟨?_, sortCanon_pairwise_strict l hid, ?_⟩
  · unfold replay
    rw [sortCanon_eq_of_perm hperm hid]
  · refine (sortCanon_sorted l).imp ?_
    intro a b hle hday hpt
    simp only [canonLE, Bool.or_eq_true, Bool.and_eq_true, decide_eq_true_eq] at hle
    rw [hday, hpt.1, hpt.2] at hle
    simp [typeRank] at hle

def w2Supply : Transaction Int :=
  { id := 1, customerId := 1, day := 3, type := TransactionType.SUPPLY,
    quantity := some 4, rate := some 160, amount := 640, balanceAfter := 0 }

def w2Payment : Transaction Int :=
  { id := 2, customerId := 1, day := 3, type := TransactionType.PAYMENT,
    quantity := none, rate := none, amount := 200, balanceAfter := 0 }

theorem replay_canonical_total_order_witness :
    (([w2Payment, w2Supply] : List (Transaction Int)).Perm [w2Supply, w2Payment] ∧
        (([w2Payment, w2Supply] : List (Transaction Int)).map Transaction.id).Nodup) ∧
      (replay wCustomer [w2Payment, w2Supply] = replay wCustomer [w2Supply, w2Payment] ∧
        (sortCanon [w2Payment, w2Supply]).Pairwise canonLT ∧
        (sortCanon ([w2Payment, w2Supply] : List (Transaction Int))).Pairwise
          (fun a b => a.day = b.day →
            ¬(a.type = TransactionType.PAYMENT ∧ b.type = TransactionType.SUPPLY))) :=
  ⟨⟨by decide, by decide⟩,
    replay_canonical_total_order wCustomer [w2Payment, w2Supply] [w2Supply, w2Payment]
      (by decide) (by decide)⟩

theorem no_rate_only_update_witness :
    (findOldSupply wDB 1 1 = some wSupplyTx ∧ wSupplyTx.quantity = some 10 ∧
        wSupplyTx.rate ≠ some ((155 : Int) + 10) ∧ (0 : Int) = oldPayOf wDB 1 1) ∧
      handleSaveCustomer (155 : Int) 1 wDB wCustomer 10 0 = wDB :=
  ⟨⟨by decide, by decide, by decide, by decide⟩,
    no_rate_only_update 155 1 wDB wCustomer wSupplyTx 10 0 (by decide) (by decide)
      (by decide) (by decide)⟩

/-- Shift a replay accumulator's running balance by a constant. -/
def shiftAcc (X : K) (acc : ReplayAcc K) : ReplayAcc K :=
  { acc with runningBalance := acc.runningBalance + X }

/-- Shift a transaction's cached `balanceAfter` by a constant. -/
def shiftBalance (X : K) (t : Transaction K) : Transaction K :=
  { t with balanceAfter := t.balanceAfter + X }

lemma replayStep_shift (X : K) (acc : ReplayAcc K) (t : Transaction K) :
    replayStep (shiftAcc X acc) t =
      (shiftAcc X (replayStep acc t).1, shiftBalance X (replayStep acc t).2) := by
  obtain ⟨i, cid, d, ty, q, r, a, b⟩ := t
  cases ty <;> simp [replayStep, shiftAcc, shiftBalance] <;> ring

/-- Shifting the starting balance by `X` shifts every computed
`balanceAfter` and the final running balance by exactly `X`, and leaves
the other accumulators untouched. -/
lemma forwardPass_shift (X : K) (l : List (Transaction K)) :
    ∀ acc : ReplayAcc K, forwardPass (shiftAcc X acc) l =
      (shiftAcc X (forwardPass acc l).1, (forwardPass acc l).2.map (shiftBalance X)) := by
  induction l with
  | nil => intro acc; simp [forwardPass]
  | cons t rest ih =>
    intro acc
    simp only [forwardPass, replayStep_shift, ih, List.map_cons]

/-- The forward pass only rewrites `balanceAfter`: any projection blind
to `balanceAfter` is preserved elementwise. -/
lemma forwardPass_map_eq {β : Type _} (f : Transaction K → β)
    (hf : ∀ (t : Transaction K) (x : K), f { t with balanceAfter := x } = f t)
    (l : List (Transaction K)) :
    ∀ acc : ReplayAcc K, ((forwardPass acc l).2).map f = l.map f := by
  induction l with
  | nil => intro acc; simp [forwardPass]
  | cons t rest ih =>
    intro acc
    obtain ⟨i, cid, d, ty, q, r, a, b⟩ := t
    cases ty <;> simp [forwardPass, replayStep, ih] <;>
      exact hf ⟨i, cid, d, _, q, r, a, b⟩ _

/-- Every computed transaction of the forward pass stems from an input
transaction with the same id and owner. -/
lemma forwardPass_mem_source {acc : ReplayAcc K} {l : List (Transaction K)}
    {o : Transaction K} (ho : o ∈ (forwardPass acc l).2) :
    ∃ u ∈ l, u.id = o.id ∧ u.customerId = o.customerId := by
  have h := forwardPass_map_eq (fun t => (t.id, t.customerId)) (fun t x => rfl) l acc
  have : (o.id, o.customerId) ∈ l.map (fun t => (t.id, t.customerId)) := by
    rw [← h]; exact List.mem_map_of_mem _ ho
  obtain ⟨u, hu, hueq⟩ := List.mem_map.mp this
  simp only [Prod.mk.injEq] at hueq
  exact ⟨u, hu, hueq.1, hueq.2⟩

/-- Every input transaction of the forward pass has a computed
counterpart with the same id. -/
lemma forwardPass_source_mem {acc : ReplayAcc K} {l : List (Transaction K)}
    {u : Transaction K} (hu : u ∈ l) :
    ∃ o ∈ (forwardPass acc l).2, o.id = u.id := by
  have h := forwardPass_map_eq (fun t => t.id) (fun t x => rfl) l acc
  have : u.id ∈ ((forwardPass acc l).2).map (fun t => t.id) := by
    rw [h]; exact List.mem_map_of_mem _ hu
  obtain ⟨o, ho, hoeq⟩ := List.mem_map.mp this
  exact ⟨o, ho, hoeq⟩

/-- In a store whose transaction ids are pairwise distinct, equal ids
mean equal records. -/
lemma ids_inj {l : List (Transaction K)} (h : (l.map Transaction.id).Nodup)
    {a b : Transaction K} (ha : a ∈ l) (hb : b ∈ l) (hid : a.id = b.id) : a = b :=
  List.inj_on_of_nodup_map h ha hb hid

/-- Every stored transaction of the replayed customer has a computed
counterpart found by the balance write-back. -/
lemma find?_isSome_of_owner {db : DB K} {cid : Nat} {t : Transaction K}
    (ht : t ∈ db.transactions) (hcid : t.customerId = cid) (acc : ReplayAcc K) :
    (((forwardPass acc (sortCanon (transactionsOf db cid))).2).find?
      (fun o => decide (o.id = t.id))).isSome = true := by
  have htl : t ∈ transactionsOf db cid := by
    simp [transactionsOf, List.mem_filter, ht, hcid]
  have hts : t ∈ sortCanon (transactionsOf db cid) :=
    ((sortCanon_perm _).mem_iff).mpr htl
  obtain ⟨o, ho, hoid⟩ := @forwardPass_source_mem _ _ acc _ _ hts
  exact List.find?_isSome.mpr ⟨o, ho, by simp [hoid]⟩

/-- When the balance write-back finds a computed counterpart for a
stored transaction (in a store with distinct ids), that transaction
belongs to the replayed customer. -/
lemma owner_of_find?_some {db : DB K} {cid : Nat}
    (hid : (db.transactions.map Transaction.id).Nodup)
    {t o : Transaction K} (ht : t ∈ db.transactions) {acc : ReplayAcc K}
    (hfind : ((forwardPass acc (sortCanon (transactionsOf db cid))).2).find?
        (fun o => decide (o.id = t.id)) = some o) :
    t.customerId = cid := by
  have ho := List.mem_of_find?_eq_some hfind
  have hoid : o.id = t.id := by simpa using List.find?_some hfind
  obtain ⟨u, hu, huid, hucid⟩ := forwardPass_mem_source ho
  have hul : u ∈ transactionsOf db cid := ((sortCanon_perm _).mem_iff).mp hu
  have hudb : u ∈ db.transactions := (List.mem_filter.mp hul).1
  have hucidl : u.customerId = cid := by
    have h2 := (List.mem_filter.mp hul).2
    simpa using h2
  have hut : u = t := ids_inj hid hudb ht (by rw [huid, hoid])
  rw [← hut]
  exact hucidl

/-- C3.  Replaying the same transaction set with the opening balance
increased by `X` yields a `balanceAfter` increased by exactly `X` on
every transaction of that customer (and no change to any other
customer's transactions), a `currentBalance` increased by exactly `X`,
and unchanged `totalSupplied` and `totalPaid`; and editing a customer's
`openingBalance` alone to a different value triggers exactly this full
replay. -/
theorem openingBalance_propagation (db : DB K) (cid : Nat) (ob X : K)
    (hid : (db.transactions.map Transaction.id).Nodup) :
    ((recalculateCustomerBalance db cid (ob + X)).transactions
        = (recalculateCustomerBalance db cid ob).transactions.map
            (fun t => if t.customerId = cid then shiftBalance X t else t) ∧
      (recalculateCustomerBalance db cid (ob + X)).customers
        = (recalculateCustomerBalance db cid ob).customers.map
            (fun cu => if cu.id = cid then
              { cu with openingBalance := cu.openingBalance + X,
                        currentBalance := cu.currentBalance + X }
            else cu)) ∧
    (∀ (c : Customer K) (newRate newOpening : K), c.openingBalance ≠ newOpening →
      customersHandleSubmitEdit db c newRate newOpening
        = recalculateCustomerBalance
            (updateCustomer db c.id (fun cu => { cu with supplyRate := newRate }))
            c.id newOpening) := by
  have hacc : ({ runningBalance := ob + X, totalSupplied := 0, totalPaid := 0,
                 lastSupplyDate := 0 } : ReplayAcc K)
      = shiftAcc X { runningBalance := ob, totalSupplied := 0, totalPaid := 0,
                     lastSupplyDate := 0 } := rfl
  refine ⟨⟨?_, ?_⟩, ?_⟩
  · simp only [recalculateCustomerBalance, updateCustomer, hacc, forwardPass_shift]
    unfold writeBalances
    rw [List.map_map]
    refine List.map_congr_left ?_
    intro t ht
    simp only [Function.comp]
    rw [List.find?_map]
    have hcomp : ((fun o => decide (o.id = t.id)) ∘ shiftBalance X)
        = (fun o => decide (o.id = t.id)) := by
      funext o
      simp [shiftBalance]
    rw [hcomp]
    cases hfind : (forwardPass
          ({ runningBalance := ob, totalSupplied := 0, totalPaid := 0,
             lastSupplyDate := 0 } : ReplayAcc K)
          (sortCanon (transactionsOf db cid))).2.find?
        (fun o => decide (o.id = t.id)) with
    | some o =>
      have hcid : t.customerId = cid := owner_of_find?_some hid ht hfind
      simp [shiftBalance, hcid]
    | none =>
      have hncid : ¬t.customerId = cid := by
        intro hc
        have hsome := find?_isSome_of_owner ht hc
          ({ runningBalance := ob, totalSupplied := 0, totalPaid := 0,
             lastSupplyDate := 0 } : ReplayAcc K)
        rw [hfind] at hsome
        simp at hsome
      simp [hncid]
  · simp only [recalculateCustomerBalance, updateCustomer, hacc, forwardPass_shift]
    rw [List.map_map]
    refine List.map_congr_left ?_
    intro cu hcu
    by_cases hc : cu.id = cid <;> simp [hc, shiftAcc, Function.comp]
  · intro c newRate newOpening hne
    simp only [customersHandleSubmitEdit]
    rw [if_neg hne]

theorem openingBalance_propagation_witness :
    ((wDB.transactions.map Transaction.id).Nodup ∧ wCustomer.openingBalance ≠ (7 : Int)) ∧
      ((recalculateCustomerBalance wDB 1 ((0 : Int) + 25)).transactions
          = (recalculateCustomerBalance wDB 1 (0 : Int)).transactions.map
              (fun t => if t.customerId = 1 then shiftBalance 25 t else t) ∧
        (recalculateCustomerBalance wDB 1 ((0 : Int) + 25)).customers
          = (recalculateCustomerBalance wDB 1 (0 : Int)).customers.map
              (fun cu => if cu.id = 1 then
                { cu with openingBalance := cu.openingBalance + 25,
                          currentBalance := cu.currentBalance + 25 }
              else cu)) ∧
      customersHandleSubmitEdit wDB wCustomer (10 : Int) 7
        = recalculateCustomerBalance
            (updateCustomer wDB wCustomer.id (fun cu => { cu with supplyRate := (10 : Int) }))
            wCustomer.id 7 :=
  ⟨⟨by decide, by decide⟩,
    ⟨⟨(openingBalance_propagation wDB 1 0 25 (by decide)).1.1,
      (openingBalance_propagation wDB 1 0 25 (by decide)).1.2⟩,
      (openingBalance_propagation wDB 1 0 25 (by decide)).2 wCustomer 10 7 (by decide)⟩⟩

/-- Day of the most recent SUPPLY transaction in chronological
(calendar) order — insertion-order independent — defaulting to the
customer's creation day: the specification's characterisation of
`lastSupplyDate`. -/
def lastSupplyDayModel (createdAt : Nat) (l : List (Transaction K)) : Nat :=
  (((l.filter (fun t => decide (t.type = TransactionType.SUPPLY))).map
    Transaction.day).max?).getD createdAt

lemma forwardPass_lsd (l : List (Transaction K)) :
    ∀ acc : ReplayAcc K, (forwardPass acc l).1.lastSupplyDate
      = ((l.filter (fun t => decide (t.type = TransactionType.SUPPLY))).map
          Transaction.day).getLastD acc.lastSupplyDate := by
  induction l with
  | nil => intro acc; simp [forwardPass]
  | cons t rest ih =>
    intro acc
    obtain ⟨i, cid, d, ty, q, r, a, b⟩ := t
    cases ty
    · simp only [forwardPass, replayStep]
      rw [ih]
      rw [List.filter_cons_of_pos (by simp)]
      simp only [List.map_cons]
      rw [List.getLastD_cons]
    · simp only [forwardPass, replayStep]
      rw [ih]
      rw [List.filter_cons_of_neg (by simp)]

lemma max?_eq_some_iff_nat {a : Nat} {xs : List Nat} :
    xs.max? = some a ↔ a ∈ xs ∧ ∀ b ∈ xs, b ≤ a :=
  List.max?_eq_some_iff (fun a => le_refl a) (fun a b => max_choice a b)
    (fun a b c => max_le_iff)

/-- In an ascending list the last element is the maximum. -/
lemma getLastD_eq_max?_getD :
    ∀ ds : List Nat, ds.Pairwise (· ≤ ·) → ∀ i : Nat, ds.getLastD i = ds.max?.getD i := by
  intro ds
  induction ds with
  | nil => intro _ i; rfl
  | cons d ds ih =>
    intro hp i
    have hd : ∀ b ∈ ds, d ≤ b := (List.pairwise_cons.mp hp).1
    have hp' : ds.Pairwise (· ≤ ·) := (List.pairwise_cons.mp hp).2
    rw [List.getLastD_cons, List.max?_cons]
    cases hm : ds.max? with
    | none =>
      rw [List.max?_eq_none_iff] at hm
      subst hm
      rfl
    | some m =>
      have hmem : m ∈ ds := (max?_eq_some_iff_nat.mp hm).1
      have hdm : d ≤ m := hd m hmem
      have hih := ih hp' d
      rw [hm] at hih
      simp only [Option.getD_some] at hih
      rw [hih]
      show m = max d m
      exact (max_eq_right hdm).symm

lemma max?_perm {l l' : List Nat} (h : l.Perm l') : l.max? = l'.max? := by
  cases hm : l.max? with
  | none =>
    rw [List.max?_eq_none_iff] at hm
    subst hm
    have hl' : l' = [] := h.symm.eq_nil
    rw [hl']
    rfl
  | some a =>
    rw [max?_eq_some_iff_nat] at hm
    have : l'.max? = some a :=
      max?_eq_some_iff_nat.mpr ⟨h.mem_iff.mp hm.1, fun b hb => hm.2 b (h.mem_iff.mpr hb)⟩
    rw [this]

/-- The `lastSupplyDate` accumulator left by the canonical replay is the
day of the chronologically most recent SUPPLY transaction, with the
customer's creation day as fallback. -/
lemma replay_lsd (c : Customer K) (l : List (Transaction K)) :
    (replay c l).1.lastSupplyDate = lastSupplyDayModel c.createdAt l := by
  unfold replay lastSupplyDayModel
  rw [forwardPass_lsd]
  have h1 : (sortCanon l).Pairwise (fun a b => a.day ≤ b.day) :=
    (sortCanon_sorted l).imp (fun hab => by
      simp only [canonLE, Bool.or_eq_true, Bool.and_eq_true, decide_eq_true_eq] at hab
      omega)
  have h2 := h1.filter (fun t => decide (t.type = TransactionType.SUPPLY))
  have hsorted :
      (((sortCanon l).filter (fun t => decide (t.type = TransactionType.SUPPLY))).map
        Transaction.day).Pairwise (· ≤ ·) := (List.pairwise_map).mpr h2
  rw [getLastD_eq_max?_getD _ hsorted]
  rw [max?_perm (((sortCanon_perm l).filter _).map _)]
  rfl

/-- C7 amended.  The daily-record replay writes `lastSupplyDate`
together with the other three aggregate fields, equal to the day of the
chronologically most recent SUPPLY transaction and defaulting to the
customer's creation day; the opening-balance-edit replay
(`recalculateCustomerBalance`) writes only the other three fields and
leaves every customer's `lastSupplyDate` unchanged. -/
theorem lastSupplyDate_written (db : DB K) (c : Customer K) (cid : Nat) (ob : K) :
    (runReplayDaily db c).customers
        = db.customers.map (fun cu =>
            if cu.id = c.id then
              { cu with
                  currentBalance := (replay c (transactionsOf db c.id)).1.runningBalance,
                  totalSupplied := (replay c (transactionsOf db c.id)).1.totalSupplied,
                  totalPaid := (replay c (transactionsOf db c.id)).1.totalPaid,
                  lastSupplyDate :=
                    some (lastSupplyDayModel c.createdAt (transactionsOf db c.id)) }
            else cu) ∧
      (recalculateCustomerBalance db cid ob).customers.map (fun cu => cu.lastSupplyDate)
        = db.customers.map (fun cu => cu.lastSupplyDate) := by
  constructor
  · simp only [runReplayDaily, updateCustomer, replay_lsd]
  · simp only [recalculateCustomerBalance, updateCustomer, List.map_map]
    refine List.map_congr_left ?_
    intro cu hcu
    by_cases hc : cu.id = cid <;> simp [hc, Function.comp]

def c7Customer : Customer Int :=
  { id := 1, supplyRate := 0, openingBalance := 0, currentBalance := 150,
    totalSupplied := 1, totalPaid := 0, lastSupplyDate := some 99, createdAt := 0 }

def c7Tx : Transaction Int :=
  { id := 1, customerId := 1, day := 1, type := TransactionType.SUPPLY,
    quantity := some 1, rate := some 150, amount := 150, balanceAfter := 150 }

def c7DB : DB Int :=
  { customers := [c7Customer], transactions := [c7Tx], nextTxId := 2, nextCustomerId := 2 }

/-- C7 counterexample.  The opening-balance-edit replay is a successful
full replay — it rewrites `balanceAfter` and the three other aggregate
fields — yet it does not write `lastSupplyDate`: the stale stored value
99 survives although the only SUPPLY transaction is on day 1. -/
theorem lastSupplyDate_not_always_written :
    (recalculateCustomerBalance c7DB 1 (5 : Int)).customers.map
        (fun cu => cu.lastSupplyDate) = [some 99] ∧
      (recalculateCustomerBalance c7DB 1 (5 : Int)).customers.map
        (fun cu => cu.currentBalance) = [(155 : Int)] ∧
      lastSupplyDayModel c7Customer.createdAt
        (transactionsOf (recalculateCustomerBalance c7DB 1 (5 : Int)) 1) = 1 ∧
      (some 99 : Option Nat) ≠ some 1 := by
  decide

/-- C8 amended.  The bulk-import/restore workflow replaces the entire
data set with the imported records verbatim — including their cached
`balanceAfter` and customer aggregate fields — and runs no replay. -/
theorem import_restores_verbatim (db : DB K) (data : BackupData K) :
    (importData db data).customers = data.customers ∧
      (importData db data).transactions = data.transactions := by
  simp [importData]

def c8Customer : Customer Int :=
  { id := 1, supplyRate := 0, openingBalance := 0, currentBalance := 999,
    totalSupplied := 0, totalPaid := 0, lastSupplyDate := none, createdAt := 0 }

def c8Tx : Transaction Int :=
  { id := 1, customerId := 1, day := 1, type := TransactionType.SUPPLY,
    quantity := some 2, rate := some 150, amount := 300, balanceAfter := 999 }

def c8Payload : BackupData Int :=
  { customers := [c8Customer], transactions := [c8Tx] }

/-- C8 counterexample.  Importing a backup whose cached values are
inconsistent leaves them verbatim: the stored `balanceAfter` (999) and
`currentBalance` (999) differ from the replay of the imported
transaction set (300), so no replay ran after the restore. -/
theorem import_no_replay :
    (importData (emptyDB : DB Int) c8Payload).transactions.map (fun t => t.balanceAfter)
        = [999] ∧
      (replay c8Customer
          (transactionsOf (importData (emptyDB : DB Int) c8Payload) 1)).2.map
        (fun t => t.balanceAfter) = [300] ∧
      (importData (emptyDB : DB Int) c8Payload).customers.map (fun cu => cu.currentBalance)
        = [999] ∧
      (replay c8Customer
          (transactionsOf (importData (emptyDB : DB Int) c8Payload) 1)).1.runningBalance
        = 300 ∧
      (999 : Int) ≠ 300 := by
  decide

/-- Two transactions occupy the same merge slot: same customer, same
calendar day, same kind. -/
def sameKey (a b : Transaction K) : Prop :=
  a.customerId = b.customerId ∧ a.day = b.day ∧ a.type = b.type

instance (a b : Transaction K) : Decidable (sameKey a b) := by
  unfold sameKey
  infer_instance

/-- The at-most-one invariant of the data model: no two stored
transactions share a (customerId, day, kind) slot. -/
def AtMostOnePerDayTx (txs : List (Transaction K)) : Prop :=
  txs.Pairwise (fun a b => ¬ sameKey a b)

def AtMostOnePerDay (db : DB K) : Prop :=
  AtMostOnePerDayTx db.transactions

instance (txs : List (Transaction K)) : Decidable (AtMostOnePerDayTx txs) := by
  unfold AtMostOnePerDayTx
  infer_instance

instance (db : DB K) : Decidable (AtMostOnePerDay db) := by
  unfold AtMostOnePerDay
  infer_instance

lemma findOldSupply_spec {db : DB K} {cid day : Nat} {s : Transaction K}
    (h : findOldSupply db cid day = some s) :
    s ∈ db.transactions ∧ s.customerId = cid ∧ s.day = day ∧
      s.type = TransactionType.SUPPLY := by
  have hmem := List.mem_of_find?_eq_some h
  have hp := List.find?_some h
  have hd := List.mem_filter.mp hmem
  simp only [decide_eq_true_eq] at hp
  refine ⟨hd.1, hp.1, ?_, hp.2⟩
  have := hd.2
  simpa using this

lemma findOldSupply_none {db : DB K} {cid day : Nat} (h : findOldSupply db cid day = none) :
    ∀ t ∈ db.transactions,
      ¬(t.customerId = cid ∧ t.day = day ∧ t.type = TransactionType.SUPPLY) := by
  intro t ht hk
  have hmem : t ∈ db.transactions.filter (fun t => decide (t.day = day)) :=
    List.mem_filter.mpr ⟨ht, by simp [hk.2.1]⟩
  have := List.find?_eq_none.mp h t hmem
  simp [hk.1, hk.2.2] at this

lemma findOldPayment_spec {db : DB K} {cid day : Nat} {p : Transaction K}
    (h : findOldPayment db cid day = some p) :
    p ∈ db.transactions ∧ p.customerId = cid ∧ p.day = day ∧
      p.type = TransactionType.PAYMENT := by
  have hmem := List.mem_of_find?_eq_some h
  have hp := List.find?_some h
  have hd := List.mem_filter.mp hmem
  simp only [decide_eq_true_eq] at hp
  refine ⟨hd.1, hp.1, ?_, hp.2⟩
  have := hd.2
  simpa using this

lemma findOldPayment_none {db : DB K} {cid day : Nat} (h : findOldPayment db cid day = none) :
    ∀ t ∈ db.transactions,
      ¬(t.customerId = cid ∧ t.day = day ∧ t.type = TransactionType.PAYMENT) := by
  intro t ht hk
  have hmem : t ∈ db.transactions.filter (fun t => decide (t.day = day)) :=
    List.mem_filter.mpr ⟨ht, by simp [hk.2.1]⟩
  have := List.find?_eq_none.mp h t hmem
  simp [hk.1, hk.2.2] at this

/-- Mapping a slot-preserving function over the store keeps the
at-most-one invariant. -/
lemma atMostOne_map {g : Transaction K → Transaction K}
    (hg : ∀ t, (g t).customerId = t.customerId ∧ (g t).day = t.day ∧ (g t).type = t.type)
    {txs : List (Transaction K)} (h : AtMostOnePerDayTx txs) :
    AtMostOnePerDayTx (txs.map g) := by
  rw [AtMostOnePerDayTx, List.pairwise_map]
  refine h.imp ?_
  intro a b hab hk
  obtain ⟨h1, h2, h3⟩ := hk
  rw [(hg a).1, (hg b).1] at h1
  rw [(hg a).2.1, (hg b).2.1] at h2
  rw [(hg a).2.2, (hg b).2.2] at h3
  exact hab ⟨h1, h2, h3⟩

lemma atMostOne_filter (p : Transaction K → Bool) {txs : List (Transaction K)}
    (h : AtMostOnePerDayTx txs) : AtMostOnePerDayTx (txs.filter p) :=
  List.Pairwise.sublist (List.filter_sublist txs) h

lemma atMostOne_append_one {txs : List (Transaction K)} {x : Transaction K}
    (h : AtMostOnePerDayTx txs) (hfresh : ∀ t ∈ txs, ¬ sameKey t x) :
    AtMostOnePerDayTx (txs ++ [x]) := by
  rw [AtMostOnePerDayTx, List.pairwise_append]
  refine ⟨h, by simp [AtMostOnePerDayTx], ?_⟩
  intro a ha b hb
  have hbx : b = x := by simpa using hb
  subst hbx
  exact hfresh a ha

lemma atMostOne_writeBalances {txs outs : List (Transaction K)}
    (h : AtMostOnePerDayTx txs) : AtMostOnePerDayTx (writeBalances txs outs) := by
  refine atMostOne_map ?_ h
  intro t
  cases outs.find? (fun o => decide (o.id = t.id)) <;> simp

/-- Membership in the balance write-back stems from a stored transaction
in the same slot with the same id. -/
lemma mem_writeBalances {txs outs : List (Transaction K)} {t : Transaction K}
    (h : t ∈ writeBalances txs outs) :
    ∃ u ∈ txs, t.customerId = u.customerId ∧ t.day = u.day ∧ t.type = u.type ∧
      t.id = u.id := by
  obtain ⟨u, hu, heq⟩ := List.mem_map.mp h
  refine ⟨u, hu, ?_⟩
  subst heq
  cases outs.find? (fun o => decide (o.id = u.id)) <;> simp

lemma atMostOne_runReplayDaily {db : DB K} (c : Customer K) (h : AtMostOnePerDay db) :
    AtMostOnePerDay (runReplayDaily db c) := by
  simp only [AtMostOnePerDay, runReplayDaily, updateCustomer]
  exact atMostOne_writeBalances h

lemma atMostOne_reconcileSupply {farmRate : K} {day : Nat} {db : DB K} {c : Customer K}
    {newQty : K} (h : AtMostOnePerDay db) :
    AtMostOnePerDay (reconcileSupply farmRate day db c newQty) := by
  unfold AtMostOnePerDay reconcileSupply
  by_cases hq : 0 < newQty
  · rw [if_pos hq]
    cases hs : findOldSupply db c.id day with
    | some s =>
      refine atMostOne_map ?_ h
      intro t
      by_cases ht : t.id = s.id <;> simp [updateTransaction, ht]
    | none =>
      refine atMostOne_append_one h ?_
      intro t ht hk
      exact findOldSupply_none hs t ht ⟨hk.1, hk.2.1, hk.2.2⟩
  · rw [if_neg hq]
    cases hs : findOldSupply db c.id day with
    | some s => exact atMostOne_filter _ h
    | none => exact h

/-- Transactions surviving the supply step either keep a stored
transaction's slot or are the freshly inserted supply for (c, day). -/
lemma mem_reconcileSupply {farmRate : K} {day : Nat} {db : DB K} {c : Customer K}
    {newQty : K} {t : Transaction K}
    (ht : t ∈ (reconcileSupply farmRate day db c newQty).transactions) :
    (∃ u ∈ db.transactions, t.customerId = u.customerId ∧ t.day = u.day ∧
        t.type = u.type ∧ t.id = u.id) ∨
      (t.customerId = c.id ∧ t.day = day ∧ t.type = TransactionType.SUPPLY) := by
  unfold reconcileSupply at ht
  by_cases hq : 0 < newQty
  · rw [if_pos hq] at ht
    cases hs : findOldSupply db c.id day with
    | some s =>
      rw [hs] at ht
      simp only [updateTransaction] at ht
      obtain ⟨u, hu, heq⟩ := List.mem_map.mp ht
      refine Or.inl ⟨u, hu, ?_⟩
      subst heq
      by_cases h2 : u.id = s.id <;> simp [h2]
    | none =>
      rw [hs] at ht
      simp only [addTransaction, List.mem_append, List.mem_singleton] at ht
      rcases ht with ht | ht
      · exact Or.inl ⟨t, ht, rfl, rfl, rfl, rfl⟩
      · subst ht
        exact Or.inr ⟨rfl, rfl, rfl⟩
  · rw [if_neg hq] at ht
    cases hs : findOldSupply db c.id day with
    | some s =>
      rw [hs] at ht
      simp only [deleteTransaction] at ht
      exact Or.inl ⟨t, (List.mem_filter.mp ht).1, rfl, rfl, rfl, rfl⟩
    | none =>
      rw [hs] at ht
      exact Or.inl ⟨t, ht, rfl, rfl, rfl, rfl⟩

lemma mem_reconcilePayment {day : Nat} {op : Option (Transaction K)} {db : DB K}
    {c : Customer K} {newPay : K} {t : Transaction K}
    (ht : t ∈ (reconcilePayment day op db c newPay).transactions) :
    (∃ u ∈ db.transactions, t.customerId = u.customerId ∧ t.day = u.day ∧
        t.type = u.type ∧ t.id = u.id) ∨
      (t.customerId = c.id ∧ t.day = day ∧ t.type = TransactionType.PAYMENT) := by
  unfold reconcilePayment at ht
  by_cases hp : 0 < newPay
  · rw [if_pos hp] at ht
    cases op with
    | some p =>
      simp only [updateTransaction] at ht
      obtain ⟨u, hu, heq⟩ := List.mem_map.mp ht
      refine Or.inl ⟨u, hu, ?_⟩
      subst heq
      by_cases h2 : u.id = p.id <;> simp [h2]
    | none =>
      simp only [addTransaction, List.mem_append, List.mem_singleton] at ht
      rcases ht with ht | ht
      · exact Or.inl ⟨t, ht, rfl, rfl, rfl, rfl⟩
      · subst ht
        exact Or.inr ⟨rfl, rfl, rfl⟩
  · rw [if_neg hp] at ht
    cases op with
    | some p =>
      simp only [deleteTransaction] at ht
      exact Or.inl ⟨t, (List.mem_filter.mp ht).1, rfl, rfl, rfl, rfl⟩
    | none =>
      exact Or.inl ⟨t, ht, rfl, rfl, rfl, rfl⟩

lemma atMostOne_reconcilePayment {day : Nat} {op : Option (Transaction K)} {db : DB K}
    {c : Customer K} {newPay : K} (h : AtMostOnePerDay db)
    (hfresh : op = none → ∀ t ∈ db.transactions,
      ¬(t.customerId = c.id ∧ t.day = day ∧ t.type = TransactionType.PAYMENT)) :
    AtMostOnePerDay (reconcilePayment day op db c newPay) := by
  unfold AtMostOnePerDay reconcilePayment
  by_cases hp : 0 < newPay
  · rw [if_pos hp]
    cases op with
    | some p =>
      refine atMostOne_map ?_ h
      intro t
      by_cases ht : t.id = p.id <;> simp [updateTransaction, ht]
    | none =>
      refine atMostOne_append_one h ?_
      intro t ht hk
      exact hfresh rfl t ht ⟨hk.1, hk.2.1, hk.2.2⟩
  · rw [if_neg hp]
    cases op with
    | some p => exact atMostOne_filter _ h
    | none => exact h

/-- C5 amended.  Day reconciliation — and every other engine operation
except the single-entry workflows — preserves the at-most-one-SUPPLY /
at-most-one-PAYMENT-per-(customer, day) invariant; the single-entry
workflows append unconditionally and can break it (see the
counterexample). -/
theorem at_most_one_per_day_preserved (farmRate : K) (day cid createdAt : Nat)
    (db : DB K) (c : Customer K) (newQty newPay ob : K) (h : AtMostOnePerDay db) :
    AtMostOnePerDay (handleSaveCustomer farmRate day db c newQty newPay) ∧
      AtMostOnePerDay (recalculateCustomerBalance db cid ob) ∧
      AtMostOnePerDay (customersHandleSubmitEdit db c newQty ob) ∧
      AtMostOnePerDay (deleteCustomerOp db cid) ∧
      AtMostOnePerDay (addCustomer db newQty ob createdAt) := by
  have hrecalc : ∀ (db' : DB K), AtMostOnePerDay db' →
      ∀ (cid' : Nat) (ob' : K), AtMostOnePerDay (recalculateCustomerBalance db' cid' ob') := by
    intro db' h' cid' ob'
    simp only [AtMostOnePerDay, recalculateCustomerBalance, updateCustomer]
    exact atMostOne_writeBalances h'
  refine ⟨?_, hrecalc db h cid ob, ?_, ?_, ?_⟩
  · simp only [handleSaveCustomer]
    by_cases hguard : newQty = oldQtyOf db c.id day ∧ newPay = oldPayOf db c.id day ∧
        ((findOldSupply db c.id day).isSome ∨ (findOldPayment db c.id day).isSome ∨
          (newQty = 0 ∧ newPay = 0))
    · rw [if_pos hguard]
      exact h
    · rw [if_neg hguard]
      refine atMostOne_runReplayDaily c ?_
      refine atMostOne_reconcilePayment (atMostOne_reconcileSupply h) ?_
      intro hnone t ht hk
      rcases mem_reconcileSupply ht with ⟨u, hu, h1, h2, h3, h4⟩ | ⟨h1, h2, h3⟩
      · exact findOldPayment_none hnone u hu ⟨h1 ▸ hk.1, h2 ▸ hk.2.1, h3 ▸ hk.2.2⟩
      · rw [h3] at hk
        exact absurd hk.2.2 (by simp)
  · simp only [AtMostOnePerDay, customersHandleSubmitEdit, updateCustomer]
    by_cases he : c.openingBalance = ob
    · rw [if_pos he]
      exact h
    · rw [if_neg he]
      exact hrecalc { db with customers := db.customers.map _ } h c.id ob
  · exact atMostOne_filter _ h
  · simp only [AtMostOnePerDay, addCustomer]
    exact h

def c5c : Customer Int :=
  { id := 1, supplyRate := 0, openingBalance := 0, currentBalance := 0,
    totalSupplied := 0, totalPaid := 0, lastSupplyDate := none, createdAt := 0 }

def c5Db0 : DB Int := addCustomer emptyDB 0 0 0

def c5Db1 : DB Int := addSupplySubmit c5Db0 150 c5c 5 10

def c5c1 : Customer Int := (c5Db1.customers.find? (fun cu => decide (cu.id = 1))).getD c5c

def c5Db2 : DB Int := addSupplySubmit c5Db1 150 c5c1 5 10

/-- C5 counterexample.  A store reached purely through engine
operations — creating a customer, then recording an ad hoc supply for
day 5 twice through the single-entry workflow — holds two SUPPLY
transactions for the same (customerId, day) pair, so the at-most-one
invariant does not hold in every reachable state. -/
theorem single_entry_breaks_uniqueness :
    c5Db0.customers = [c5c] ∧
      c5c1 ∈ c5Db1.customers ∧
      ¬ AtMostOnePerDay c5Db2 ∧
      (c5Db2.transactions.filter (fun t =>
        decide (t.customerId = 1 ∧ t.day = 5 ∧ t.type = TransactionType.SUPPLY))).length
        = 2 := by
  decide

theorem at_most_one_per_day_preserved_witness :
    AtMostOnePerDay wDB ∧
      (AtMostOnePerDay (handleSaveCustomer (150 : Int) 2 wDB wCustomer 3 40) ∧
        AtMostOnePerDay (recalculateCustomerBalance wDB 1 (7 : Int)) ∧
        AtMostOnePerDay (customersHandleSubmitEdit wDB wCustomer (3 : Int) 7) ∧
        AtMostOnePerDay (deleteCustomerOp wDB 1) ∧
        AtMostOnePerDay (addCustomer wDB (3 : Int) 7 4)) :=
  ⟨by decide, at_most_one_per_day_preserved 150 2 1 4 wDB wCustomer 3 40 7 (by decide)⟩

lemma sameKey_symm_not : Symmetric (fun a b : Transaction K => ¬ sameKey a b) := by
  intro a b hab hk
  exact hab ⟨hk.1.symm, hk.2.1.symm, hk.2.2.symm⟩

/-- With a non-positive proposed quantity, the supply step leaves no
SUPPLY row in the (customer, day) slot. -/
lemma reconcileSupply_neg_clears {farmRate : K} {day : Nat} {db : DB K} {c : Customer K}
    {newQty : K} (hq : ¬ 0 < newQty) (hinv : AtMostOnePerDay db) :
    ∀ t ∈ (reconcileSupply farmRate day db c newQty).transactions,
      ¬(t.customerId = c.id ∧ t.day = day ∧ t.type = TransactionType.SUPPLY) := by
  intro t ht hk
  unfold reconcileSupply at ht
  rw [if_neg hq] at ht
  cases hs : findOldSupply db c.id day with
  | some s =>
    rw [hs] at ht
    simp only [deleteTransaction] at ht
    have htf := List.mem_filter.mp ht
    have htd : t.id ≠ s.id := by simpa using htf.2
    obtain ⟨hsdb, hscid, hsday, hstype⟩ := findOldSupply_spec hs
    have hts : t ≠ s := fun he => htd (by rw [he])
    have hnk := List.Pairwise.forall sameKey_symm_not hinv htf.1 hsdb hts
    exact hnk ⟨hk.1.trans hscid.symm, hk.2.1.trans hsday.symm, hk.2.2.trans hstype.symm⟩
  | none =>
    rw [hs] at ht
    exact findOldSupply_none hs t ht hk

/-- With a non-positive proposed payment, the payment step (run after
the supply step, with the payment looked up in the original store)
leaves no PAYMENT row in the (customer, day) slot. -/
lemma reconcilePayment_neg_clears {farmRate : K} {day : Nat} {db : DB K} {c : Customer K}
    {newQty newPay : K} (hp : ¬ 0 < newPay) (hinv : AtMostOnePerDay db) :
    ∀ t ∈ (reconcilePayment day (findOldPayment db c.id day)
        (reconcileSupply farmRate day db c newQty) c newPay).transactions,
      ¬(t.customerId = c.id ∧ t.day = day ∧ t.type = TransactionType.PAYMENT) := by
  intro t ht hk
  unfold reconcilePayment at ht
  rw [if_neg hp] at ht
  cases hop : findOldPayment db c.id day with
  | some p =>
    rw [hop] at ht
    simp only [deleteTransaction] at ht
    have htf := List.mem_filter.mp ht
    have htd : t.id ≠ p.id := by simpa using htf.2
    obtain ⟨hpdb, hpcid, hpday, hptype⟩ := findOldPayment_spec hop
    rcases mem_reconcileSupply htf.1 with ⟨v, hv, e1, e2, e3, e4⟩ | ⟨e1, e2, e3⟩
    · by_cases hvp : v = p
      · exact htd (by rw [e4, hvp])
      · have hnk := List.Pairwise.forall sameKey_symm_not hinv hv hpdb hvp
        exact hnk ⟨(e1.symm.trans hk.1).trans hpcid.symm,
          (e2.symm.trans hk.2.1).trans hpday.symm,
          (e3.symm.trans hk.2.2).trans hptype.symm⟩
    · rw [e3] at hk
      exact absurd hk.2.2 (by simp)
  | none =>
    rw [hop] at ht
    rcases mem_reconcileSupply ht with ⟨v, hv, e1, e2, e3, e4⟩ | ⟨e1, e2, e3⟩
    · exact findOldPayment_none hop v hv ⟨e1 ▸ hk.1, e2 ▸ hk.2.1, e3 ▸ hk.2.2⟩
    · rw [e3] at hk
      exact absurd hk.2.2 (by simp)

/-- C9 amended.  The single-entry workflows return before any store
write on a non-positive quantity or amount (silently — no error is
reported).  Day reconciliation does not reject a negative proposed
value: it is treated as absence — the guard comparison fails, so the
save proceeds, any existing transaction of that kind for the
(customer, day) slot is deleted, and the replay runs — so no negative
value is ever stored, but writes do occur. -/
theorem negative_input_handling (farmRate : K) (day : Nat) (db : DB K) (c : Customer K)
    (qty pay newQty newPay : K) :
    (qty ≤ 0 → addSupplySubmit db farmRate c day qty = db) ∧
      (pay ≤ 0 → addPaymentSubmit db c day pay = db) ∧
      (newQty < 0 → 0 ≤ oldQtyOf db c.id day → AtMostOnePerDay db →
        (handleSaveCustomer farmRate day db c newQty newPay).transactions.filter
          (fun t => decide (t.customerId = c.id ∧ t.day = day ∧
            t.type = TransactionType.SUPPLY)) = []) ∧
      (newPay < 0 → 0 ≤ oldPayOf db c.id day → AtMostOnePerDay db →
        (handleSaveCustomer farmRate day db c newQty newPay).transactions.filter
          (fun t => decide (t.customerId = c.id ∧ t.day = day ∧
            t.type = TransactionType.PAYMENT)) = []) := by
  refine ⟨?_, ?_, ?_, ?_⟩
  · intro hq
    simp only [addSupplySubmit]
    rw [if_pos hq]
  · intro hp
    simp only [addPaymentSubmit]
    rw [if_pos hp]
  · intro h1 h2 hinv
    rw [List.filter_eq_nil_iff]
    intro t ht
    simp only [decide_eq_true_eq]
    intro hk
    have hg : ¬(newQty = oldQtyOf db c.id day ∧ newPay = oldPayOf db c.id day ∧
        ((findOldSupply db c.id day).isSome ∨ (findOldPayment db c.id day).isSome ∨
          (newQty = 0 ∧ newPay = 0))) := by
      intro hgg
      exact absurd hgg.1 (ne_of_lt (lt_of_lt_of_le h1 h2))
    simp only [handleSaveCustomer] at ht
    rw [if_neg hg] at ht
    simp only [runReplayDaily, updateCustomer] at ht
    obtain ⟨u, hu, e1, e2, e3, e4⟩ := mem_writeBalances ht
    rcases mem_reconcilePayment hu with ⟨v, hv, f1, f2, f3, f4⟩ | ⟨f1, f2, f3⟩
    · refine reconcileSupply_neg_clears (not_lt.mpr (le_of_lt h1)) hinv v hv ?_
      refine ⟨?_, ?_, ?_⟩
      · rw [← f1, ← e1]; exact hk.1
      · rw [← f2, ← e2]; exact hk.2.1
      · rw [← f3, ← e3]; exact hk.2.2
    · rw [e3, f3] at hk
      exact absurd hk.2.2 (by simp)
  · intro h1 h2 hinv
    rw [List.filter_eq_nil_iff]
    intro t ht
    simp only [decide_eq_true_eq]
    intro hk
    have hg : ¬(newQty = oldQtyOf db c.id day ∧ newPay = oldPayOf db c.id day ∧
        ((findOldSupply db c.id day).isSome ∨ (findOldPayment db c.id day).isSome ∨
          (newQty = 0 ∧ newPay = 0))) := by
      intro hgg
      exact absurd hgg.2.1 (ne_of_lt (lt_of_lt_of_le h1 h2))
    simp only [handleSaveCustomer] at ht
    rw [if_neg hg] at ht
    simp only [runReplayDaily, updateCustomer] at ht
    obtain ⟨u, hu, e1, e2, e3, e4⟩ := mem_writeBalances ht
    refine reconcilePayment_neg_clears (not_lt.mpr (le_of_lt h1)) hinv u hu ?_
    refine ⟨?_, ?_, ?_⟩
    · rw [← e1]; exact hk.1
    · rw [← e2]; exact hk.2.1
    · rw [← e3]; exact hk.2.2

theorem negative_input_handling_witness :
    ((0 : Int) ≤ 0 ∧ (0 : Int) ≤ 0 ∧ (-3 : Int) < 0 ∧ (0 : Int) ≤ oldQtyOf wDB 1 1 ∧
        (-4 : Int) < 0 ∧ (0 : Int) ≤ oldPayOf wDB 1 1 ∧ AtMostOnePerDay wDB) ∧
      (addSupplySubmit wDB (150 : Int) wCustomer 1 0 = wDB ∧
        addPaymentSubmit wDB wCustomer 1 0 = wDB ∧
        (handleSaveCustomer (150 : Int) 1 wDB wCustomer (-3) (-4)).transactions.filter
          (fun t => decide (t.customerId = 1 ∧ t.day = 1 ∧
            t.type = TransactionType.SUPPLY)) = [] ∧
        (handleSaveCustomer (150 : Int) 1 wDB wCustomer (-3) (-4)).transactions.filter
          (fun t => decide (t.customerId = 1 ∧ t.day = 1 ∧
            t.type = TransactionType.PAYMENT)) = []) :=
  ⟨⟨by decide, by decide, by decide, by decide, by decide, by decide, by decide⟩,
    (negative_input_handling (150 : Int) 1 wDB wCustomer 0 0 (-3) (-4)).1 (by decide),
    (negative_input_handling (150 : Int) 1 wDB wCustomer 0 0 (-3) (-4)).2.1 (by decide),
    (negative_input_handling (150 : Int) 1 wDB wCustomer 0 0 (-3) (-4)).2.2.1
      (by decide) (by decide) (by decide),
    (negative_input_handling (150 : Int) 1 wDB wCustomer 0 0 (-3) (-4)).2.2.2
      (by decide) (by decide) (by decide)⟩

/-- C9 counterexample.  A negative proposed quantity is not rejected
before any store write: saving quantity −3 against a day holding a
stored supply of 10 deletes that supply and rewrites the customer's
aggregates — the store changes, and no error path exists. -/
theorem negative_quantity_not_rejected :
    handleSaveCustomer (150 : Int) 1 wDB wCustomer (-3) 0 ≠ wDB ∧
      (handleSaveCustomer (150 : Int) 1 wDB wCustomer (-3) 0).transactions = [] ∧
      wDB.transactions ≠ [] := by
  decide

lemma map_id_pointwise {α : Type _} {f : α → α} :
    ∀ {l : List α}, l.map f = l → ∀ a ∈ l, f a = a := by
  intro l
  induction l with
  | nil => simp
  | cons x l ih =>
    intro h a ha
    rw [List.map_cons, List.cons_eq_cons] at h
    rcases List.mem_cons.mp ha with rfl | ha
    · exact h.1
    · exact ih h.2 a ha

lemma forwardPass_append (acc : ReplayAcc K) (l1 l2 : List (Transaction K)) :
    forwardPass acc (l1 ++ l2) =
      ((forwardPass (forwardPass acc l1).1 l2).1,
       (forwardPass acc l1).2 ++ (forwardPass (forwardPass acc l1).1 l2).2) := by
  induction l1 generalizing acc with
  | nil => simp [forwardPass]
  | cons t rest ih => simp [forwardPass, ih]

lemma replayStep_out (acc : ReplayAcc K) (t : Transaction K) :
    (replayStep acc t).2 = { t with balanceAfter := (replayStep acc t).1.runningBalance } := by
  obtain ⟨i, cid, d, ty, q, r, a, b⟩ := t
  cases ty <;> simp [replayStep]

/-- A transaction strictly later than everything in the list sorts to
the very end. -/
lemma sortCanon_append_last {l : List (Transaction K)} {x : Transaction K}
    (hday : ∀ t ∈ l, t.day < x.day) (hidl : (l.map Transaction.id).Nodup)
    (hxid : ∀ t ∈ l, t.id ≠ x.id) :
    sortCanon (l ++ [x]) = sortCanon l ++ [x] := by
  have hid2 : ((l ++ [x]).map Transaction.id).Nodup := by
    rw [List.map_append, List.nodup_append]
    refine ⟨hidl, by simp, ?_⟩
    intro i hi hix
    obtain ⟨t, ht, rfl⟩ := List.mem_map.mp hi
    have : t.id = x.id := by simpa using hix
    exact hxid t ht this
  refine eq_of_perm_of_pairwise canonLT_asymm
    ((sortCanon_perm (l ++ [x])).trans
      ((List.Perm.append_right [x] (sortCanon_perm l).symm)))
    (sortCanon_pairwise_strict (l ++ [x]) hid2) ?_
  rw [List.pairwise_append]
  refine ⟨sortCanon_pairwise_strict l hidl, by simp, ?_⟩
  intro a ha b hb
  have hb' : b = x := by simpa using hb
  subst hb'
  have hal : a ∈ l := ((sortCanon_perm l).mem_iff).mp ha
  constructor
  · simp only [canonLE, Bool.or_eq_true, Bool.and_eq_true, decide_eq_true_eq]
    exact Or.inl (hday a hal)
  · exact hxid a hal

/-- Appending one fresh transaction that is canonically last for its
customer to a replay-consistent store and replaying extends the state
incrementally: every old `balanceAfter` survives, the new row receives
the stepped running balance, and the customer write-back carries the
stepped accumulators. -/
lemma runReplayDaily_addTransaction (db : DB K) (c : Customer K) (mk : Nat → Transaction K)
    (hcid : (mk db.nextTxId).customerId = c.id)
    (hid : (mk db.nextTxId).id = db.nextTxId)
    (hday : ∀ t ∈ db.transactions, t.customerId = c.id → t.day < (mk db.nextTxId).day)
    (h3 : (db.transactions.map Transaction.id).Nodup)
    (h4 : ∀ t ∈ db.transactions, t.id < db.nextTxId)
    (h6 : writeBalances db.transactions (replay c (transactionsOf db c.id)).2
        = db.transactions) :
    runReplayDaily (addTransaction db mk) c =
      { db with
          transactions := db.transactions ++
            [{ mk db.nextTxId with balanceAfter :=
                (replayStep (replay c (transactionsOf db c.id)).1
                  (mk db.nextTxId)).1.runningBalance }],
          nextTxId := db.nextTxId + 1,
          customers := db.customers.map (fun cu =>
            if cu.id = c.id then
              { cu with
                  currentBalance := (replayStep (replay c (transactionsOf db c.id)).1
                    (mk db.nextTxId)).1.runningBalance,
                  totalSupplied := (replayStep (replay c (transactionsOf db c.id)).1
                    (mk db.nextTxId)).1.totalSupplied,
                  totalPaid := (replayStep (replay c (transactionsOf db c.id)).1
                    (mk db.nextTxId)).1.totalPaid,
                  lastSupplyDate := some ((replayStep (replay c (transactionsOf db c.id)).1
                    (mk db.nextTxId)).1.lastSupplyDate) }
            else cu) } := by
  have hlmem : ∀ t ∈ transactionsOf db c.id, t ∈ db.transactions ∧ t.customerId = c.id := by
    intro t ht
    have h := List.mem_filter.mp ht
    exact ⟨h.1, by simpa using h.2⟩
  have hlid : ((transactionsOf db c.id).map Transaction.id).Nodup :=
    h3.sublist ((List.filter_sublist _).map Transaction.id)
  have htxof : transactionsOf (addTransaction db mk) c.id
      = transactionsOf db c.id ++ [mk db.nextTxId] := by
    simp only [transactionsOf, addTransaction, List.filter_append]
    congr 1
    simp [hcid]
  have hsort : sortCanon (transactionsOf db c.id ++ [mk db.nextTxId])
      = sortCanon (transactionsOf db c.id) ++ [mk db.nextTxId] := by
    refine sortCanon_append_last ?_ hlid ?_
    · intro t ht
      exact hday t (hlmem t ht).1 (hlmem t ht).2
    · intro t ht
      have h := h4 t (hlmem t ht).1
      rw [hid]
      omega
  have hreplay : replay c (transactionsOf db c.id ++ [mk db.nextTxId])
      = ((replayStep (replay c (transactionsOf db c.id)).1 (mk db.nextTxId)).1,
         (replay c (transactionsOf db c.id)).2 ++
           [(replayStep (replay c (transactionsOf db c.id)).1 (mk db.nextTxId)).2]) := by
    unfold replay
    rw [hsort, forwardPass_append]
    simp [forwardPass, replay]
  have houts : ∀ o ∈ (replay c (transactionsOf db c.id)).2, o.id ≠ (mk db.nextTxId).id := by
    intro o ho
    have ho' : o ∈ (forwardPass (initAcc c) (sortCanon (transactionsOf db c.id))).2 := ho
    obtain ⟨u, hu, huid, _⟩ := forwardPass_mem_source ho'
    have hul : u ∈ transactionsOf db c.id := ((sortCanon_perm _).mem_iff).mp hu
    have h := h4 u (hlmem u hul).1
    rw [hid, ← huid]
    omega
  have hstepid : ((replayStep (replay c (transactionsOf db c.id)).1 (mk db.nextTxId)).2).id
      = (mk db.nextTxId).id := by
    rw [replayStep_out]
  have hwb : writeBalances (db.transactions ++ [mk db.nextTxId])
        ((replay c (transactionsOf db c.id)).2 ++
          [(replayStep (replay c (transactionsOf db c.id)).1 (mk db.nextTxId)).2])
      = db.transactions ++
        [{ mk db.nextTxId with balanceAfter :=
            (replayStep (replay c (transactionsOf db c.id)).1
              (mk db.nextTxId)).1.runningBalance }] := by
    unfold writeBalances at h6 ⊢
    rw [List.map_append]
    congr 1
    · have hfind : ∀ t ∈ db.transactions,
          ((replay c (transactionsOf db c.id)).2 ++
            [(replayStep (replay c (transactionsOf db c.id)).1 (mk db.nextTxId)).2]).find?
              (fun o => decide (o.id = t.id))
            = (replay c (transactionsOf db c.id)).2.find? (fun o => decide (o.id = t.id)) := by
        intro t ht
        rw [List.find?_append]
        cases hf : (replay c (transactionsOf db c.id)).2.find?
            (fun o => decide (o.id = t.id)) with
        | some o => rfl
        | none =>
          have hne : ((replayStep (replay c (transactionsOf db c.id)).1
              (mk db.nextTxId)).2).id ≠ t.id := by
            rw [hstepid, hid]
            have h := h4 t ht
            omega
          simp [List.find?, hne]
      rw [List.map_congr_left (fun t ht => by rw [hfind t ht])]
      exact h6
    · have hnone : (replay c (transactionsOf db c.id)).2.find?
          (fun o => decide (o.id = (mk db.nextTxId).id)) = none := by
        rw [List.find?_eq_none]
        intro o ho
        simp only [decide_eq_true_eq]
        exact houts o ho
      simp only [List.map_cons, List.map_nil, List.find?_append, hnone, Option.none_or]
      rw [List.find?]
      simp only [hstepid, decide_true_eq_true]
      rw [replayStep_out]
  have hr' : replay c (transactionsOf (addTransaction db mk) c.id)
      = ((replayStep (replay c (transactionsOf db c.id)).1 (mk db.nextTxId)).1,
         (replay c (transactionsOf db c.id)).2 ++
           [(replayStep (replay c (transactionsOf db c.id)).1 (mk db.nextTxId)).2]) := by
    rw [htxof, hreplay]
  have haddtx : (addTransaction db mk).transactions = db.transactions ++ [mk db.nextTxId] := rfl
  have haddcu : (addTransaction db mk).customers = db.customers := rfl
  have haddn : (addTransaction db mk).nextTxId = db.nextTxId + 1 := rfl
  have haddnc : (addTransaction db mk).nextCustomerId = db.nextCustomerId := rfl
  simp only [runReplayDaily, updateCustomer, hr', haddtx, haddcu, haddn, haddnc]
  rw [hwb]

/-- C6 amended.  When the customer's stored state is replay-consistent
(`balanceAfter` values and the stored/snapshot aggregates agree with a
fresh replay), the entry's day is strictly later than every stored
transaction of that customer, and ids are well-formed (pairwise
distinct, below the next key), the single-entry workflow produces
exactly the store that day reconciliation with only that kind touched,
followed by the full canonical replay, would produce. -/
theorem single_entry_refines_reconciliation (farmRate : K) (day : Nat) (db : DB K)
    (c : Customer K) (qty amt : K)
    (h2 : ∀ t ∈ db.transactions, t.customerId = c.id → t.day < day)
    (h3 : (db.transactions.map Transaction.id).Nodup)
    (h4 : ∀ t ∈ db.transactions, t.id < db.nextTxId)
    (h5 : c.currentBalance = (replay c (transactionsOf db c.id)).1.runningBalance ∧
      c.totalSupplied = (replay c (transactionsOf db c.id)).1.totalSupplied ∧
      c.totalPaid = (replay c (transactionsOf db c.id)).1.totalPaid)
    (h6 : writeBalances db.transactions (replay c (transactionsOf db c.id)).2
      = db.transactions)
    (h7 : ∀ cu ∈ db.customers, cu.id = c.id →
      cu.currentBalance = (replay c (transactionsOf db c.id)).1.runningBalance ∧
      cu.totalSupplied = (replay c (transactionsOf db c.id)).1.totalSupplied ∧
      cu.totalPaid = (replay c (transactionsOf db c.id)).1.totalPaid ∧
      cu.lastSupplyDate = some (replay c (transactionsOf db c.id)).1.lastSupplyDate) :
    (0 < qty → addSupplySubmit db farmRate c day qty
        = handleSaveCustomer farmRate day db c qty 0) ∧
      (0 < amt → addPaymentSubmit db c day amt
        = handleSaveCustomer farmRate day db c 0 amt) := by
  have hOldS : findOldSupply db c.id day = none := by
    rw [findOldSupply, List.find?_eq_none]
    intro t htf
    have htd := List.mem_filter.mp htf
    have hd : t.day = day := by simpa using htd.2
    simp only [decide_eq_true_eq]
    intro hp
    have h := h2 t htd.1 hp.1
    omega
  have hOldP : findOldPayment db c.id day = none := by
    rw [findOldPayment, List.find?_eq_none]
    intro t htf
    have htd := List.mem_filter.mp htf
    have hd : t.day = day := by simpa using htd.2
    simp only [decide_eq_true_eq]
    intro hp
    have h := h2 t htd.1 hp.1
    omega
  have hOldQty : oldQtyOf db c.id day = 0 := by simp [oldQtyOf, hOldS]
  have hOldPay : oldPayOf db c.id day = 0 := by simp [oldPayOf, hOldP]
  constructor
  · intro hq
    have hguard : ¬(qty = oldQtyOf db c.id day ∧ (0 : K) = oldPayOf db c.id day ∧
        ((findOldSupply db c.id day).isSome ∨ (findOldPayment db c.id day).isSome ∨
          (qty = 0 ∧ (0 : K) = 0))) := by
      intro hgg
      rw [hOldQty] at hgg
      exact absurd hgg.1 (ne_of_gt hq)
    have hrecS : reconcileSupply farmRate day db c qty
        = addTransaction db (fun i =>
            { id := i, customerId := c.id, day := day, type := TransactionType.SUPPLY,
              quantity := some qty, rate := some (farmRate + c.supplyRate),
              amount := qty * (farmRate + c.supplyRate), balanceAfter := 0 }) := by
      simp only [reconcileSupply, hOldS]
      rw [if_pos hq]
    have hrecP : ∀ db' : DB K,
        reconcilePayment day (findOldPayment db c.id day) db' c (0 : K) = db' := by
      intro db'
      simp only [reconcilePayment, hOldP]
      rw [if_neg (lt_irrefl (0 : K))]
    simp only [handleSaveCustomer]
    rw [hOldQty]
    rw [if_neg (by intro hgg; exact absurd hgg.1 (ne_of_gt hq))]
    rw [hrecS, hrecP]
    rw [runReplayDaily_addTransaction db c _ rfl rfl (fun t ht hc => h2 t ht hc) h3 h4 h6]
    simp only [addSupplySubmit]
    rw [if_neg (not_le.mpr hq)]
    simp only [updateCustomer, addTransaction, replayStep]
    rw [h5.1, h5.2.1]
    simp only [Option.getD_some]
    congr 1
    refine List.map_congr_left (fun cu hcu => ?_)
    by_cases hc : cu.id = c.id
    · simp only [if_pos hc]
      rw [(h7 cu hcu hc).2.2.1]
    · simp [hc]
  · intro ha
    have hrecS0 : reconcileSupply farmRate day db c (0 : K) = db := by
      simp only [reconcileSupply, hOldS]
      rw [if_neg (lt_irrefl (0 : K))]
    have hrecP : reconcilePayment day (findOldPayment db c.id day) db c amt
        = addTransaction db (fun i =>
            { id := i, customerId := c.id, day := day, type := TransactionType.PAYMENT,
              quantity := none, rate := none, amount := amt, balanceAfter := 0 }) := by
      simp only [reconcilePayment, hOldP]
      rw [if_pos ha]
    simp only [handleSaveCustomer]
    rw [hOldPay]
    rw [if_neg (by intro hgg; exact absurd hgg.2.1 (ne_of_gt ha))]
    rw [hrecS0, hrecP]
    rw [runReplayDaily_addTransaction db c _ rfl rfl (fun t ht hc => h2 t ht hc) h3 h4 h6]
    simp only [addPaymentSubmit]
    rw [if_neg (not_le.mpr ha)]
    simp only [updateCustomer, addTransaction, replayStep]
    rw [h5.1, h5.2.2]
    congr 1
    refine List.map_congr_left (fun cu hcu => ?_)
    by_cases hc : cu.id = c.id
    · simp only [if_pos hc]
      rw [(h7 cu hcu hc).2.1, (h7 cu hcu hc).2.2.2]
    · simp [hc]

def c6Customer : Customer Int :=
  { id := 1, supplyRate := 0, openingBalance := 0, currentBalance := -100,
    totalSupplied := 0, totalPaid := 100, lastSupplyDate := none, createdAt := 0 }

def c6Pay : Transaction Int :=
  { id := 1, customerId := 1, day := 5, type := TransactionType.PAYMENT,
    quantity := none, rate := none, amount := 100, balanceAfter := -100 }

def c6DB : DB Int :=
  { customers := [c6Customer], transactions := [c6Pay], nextTxId := 2, nextCustomerId := 2 }

/-- C6 counterexample.  Recording an ad hoc supply for a day that lies
before an already-stored payment: the single-entry workflow computes the
new row's balance incrementally from `currentBalance` and never rewrites
the payment's `balanceAfter`, while day reconciliation plus full replay
recomputes both in canonical order — the two final stores differ. -/
theorem single_entry_differs_from_reconciliation :
    addSupplySubmit c6DB 150 c6Customer 3 1
        ≠ handleSaveCustomer (150 : Int) 3 c6DB c6Customer 1 0 ∧
      (addSupplySubmit c6DB 150 c6Customer 3 1).transactions.map (fun t => t.balanceAfter)
        = [-100, 50] ∧
      (handleSaveCustomer (150 : Int) 3 c6DB c6Customer 1 0).transactions.map
        (fun t => t.balanceAfter) = [50, 150] := by
  decide

theorem single_entry_refines_reconciliation_witness :
    ((∀ t ∈ wDB.transactions, t.customerId = wCustomer.id → t.day < 2) ∧
        (wDB.transactions.map Transaction.id).Nodup ∧
        (∀ t ∈ wDB.transactions, t.id < wDB.nextTxId) ∧
        (wCustomer.currentBalance
            = (replay wCustomer (transactionsOf wDB wCustomer.id)).1.runningBalance ∧
          wCustomer.totalSupplied
            = (replay wCustomer (transactionsOf wDB wCustomer.id)).1.totalSupplied ∧
          wCustomer.totalPaid
            = (replay wCustomer (transactionsOf wDB wCustomer.id)).1.totalPaid) ∧
        writeBalances wDB.transactions (replay wCustomer (transactionsOf wDB wCustomer.id)).2
          = wDB.transactions ∧
        (∀ cu ∈ wDB.customers, cu.id = wCustomer.id →
          cu.currentBalance
              = (replay wCustomer (transactionsOf wDB wCustomer.id)).1.runningBalance ∧
            cu.totalSupplied
              = (replay wCustomer (transactionsOf wDB wCustomer.id)).1.totalSupplied ∧
            cu.totalPaid
              = (replay wCustomer (transactionsOf wDB wCustomer.id)).1.totalPaid ∧
            cu.lastSupplyDate
              = some (replay wCustomer (transactionsOf wDB wCustomer.id)).1.lastSupplyDate) ∧
        (0 : Int) < 4 ∧ (0 : Int) < 7) ∧
      (addSupplySubmit wDB (150 : Int) wCustomer 2 4
          = handleSaveCustomer (150 : Int) 2 wDB wCustomer 4 0 ∧
        addPaymentSubmit wDB wCustomer 2 7
          = handleSaveCustomer (150 : Int) 2 wDB wCustomer 0 7) :=
  ⟨⟨by decide, by decide, by decide, by decide, by decide, by decide, by decide, by decide⟩,
    (single_entry_refines_reconciliation (150 : Int) 2 wDB wCustomer 4 7 (by decide)
      (by decide) (by decide) ⟨by decide, by decide, by decide⟩ (by decide)
      (by decide)).1 (by decide),
    (single_entry_refines_reconciliation (150 : Int) 2 wDB wCustomer 4 7 (by decide)
      (by decide) (by decide) ⟨by decide, by decide, by decide⟩ (by decide)
      (by decide)).2 (by decide)⟩

end FarmLedger
